import Mathlib

/-!
# Real-time multi-camera face-detection worker: MJPEG framer, backoff, manager, worker

A shallow embedding of the Go worker (`worker/internal/camera`, `worker/internal/utils`)
and the properties proved about it.

* Byte streams are lists of bytes; a reader is the list of bytes not yet read together
  with the error `ReadByte` returns once the list is exhausted (`io.EOF` for a stream
  that simply ends).
* Go `error` values are the inductive `GoError`; `errors.Is` is `GoError.Is`.
* Effects on collaborators (subprocesses, dispatcher, publisher, logger) are recorded as
  a trace of `Effect`s; what the collaborators answer is an explicit input.
* `float64` values are rationals kept as integer fractions; a `float64` operation that
  can round is followed by an explicit rounding to nearest, ties to even
  (`float64Round`), and the conversions between `int64` and `float64` are explicit
  functions.
* A slice is the list of its elements, except where aliasing matters (`sendAlert`):
  there it is a reference into a memory of backing arrays (`BoxHeap`).
-/

set_option autoImplicit false

deriving instance DecidableEq for Except

namespace RtFaceWorker

/-! ## Definitions -/

/-- A Go `byte`. -/
abbrev Byte := Fin 256

/-- Go `error` values that the worker produces or inspects: the sentinels `io.EOF`,
`context.Canceled`, `context.DeadlineExceeded`, an error with a message
(`errors.New`, `fmt.Errorf` without `%w`), and `fmt.Errorf("<pre>: %w", inner)`. -/
inductive GoError where
  | EOF
  | Canceled
  | DeadlineExceeded
  | msg (text : String)
  | wrap (pre : String) (inner : GoError)
  deriving DecidableEq, Repr

/-- Go `errors.Is(err, target)`: `err` or an error it wraps equals `target`. -/
def GoError.Is : GoError → GoError → Bool
  | .wrap pre inner, target =>
    if GoError.wrap pre inner = target then true else inner.Is target
  | e, target => decide (e = target)

/-! ### `ffmpeg_frame_source.go` -/

/-- The test at the end of the loop body of `readMJPEGFrame`:
`len(frame) >= 2 && frame[len(frame)-2] == 0xFF && frame[len(frame)-1] == 0xD9`. -/
def endsWithEOI (frame : List Byte) : Bool :=
  decide (2 ≤ frame.length) && frame.getD (frame.length - 2) 0 == 0xFF
    && frame.getD (frame.length - 1) 0 == 0xD9

/-- The `for` loop of `readMJPEGFrame`, with the local variable `frame` as an argument and
the reader as the list of unread bytes; `atEnd` is the error `reader.ReadByte()` returns
when no byte is left. The result is the frame and the bytes left unread.

Each equation is one pass through the loop body: with `frame` empty, a byte other than
`0xFF` is dropped; after `0xFF` a second byte is read, and `0xFF 0xD8` starts the frame,
while any other second byte is dropped together with the `0xFF`. With `frame` non-empty
the byte is appended and the frame is returned once it ends with `0xFF 0xD9`. -/
def readMJPEGFrameLoop (atEnd : GoError) (frame : List Byte) :
    List Byte → Except GoError (List Byte × List Byte)
  | [] => .error atEnd
  | [b] =>
    if frame.length = 0 then
      -- `b == 0xFF`: the second `ReadByte` fails; otherwise the next pass fails
      .error atEnd
    else
      let frame1 := frame ++ [b]
      if endsWithEOI frame1 then .ok (frame1, []) else .error atEnd
  | b :: next :: rest =>
    if frame.length = 0 then
      if b = 0xFF then
        if next = 0xD8 then readMJPEGFrameLoop atEnd (frame ++ [0xFF, 0xD8]) rest
        else readMJPEGFrameLoop atEnd frame rest
      else readMJPEGFrameLoop atEnd frame (next :: rest)
    else
      let frame1 := frame ++ [b]
      if endsWithEOI frame1 then .ok (frame1, next :: rest)
      else readMJPEGFrameLoop atEnd frame1 (next :: rest)

/-- Go `readMJPEGFrame(reader)`: the loop started with `var frame []byte`. -/
def readMJPEGFrame (atEnd : GoError) (reader : List Byte) :
    Except GoError (List Byte × List Byte) :=
  readMJPEGFrameLoop atEnd [] reader

/-- Repeated calls of `readMJPEGFrame` on one reader, as `readLoop` makes them: the frames
returned up to the first error. One unit of fuel is spent per call; `none` means the fuel
ran out. -/
def readFrames (atEnd : GoError) : Nat → List Byte → Option (List (List Byte))
  | 0, _ => none
  | fuel + 1, reader =>
    match readMJPEGFrame atEnd reader with
    | .error _ => some []
    | .ok (frame, rest) => (readFrames atEnd fuel rest).map (frame :: ·)

/-- State of an `FFmpegFrameSource` after `Start`: the unread bytes of the ffmpeg stdout
pipe and the error that ends them, the contents of the two channels (both made with
capacity 1) and whether `readLoop` has closed them. -/
structure FFmpegFrameSource where
  reader : List Byte
  atEnd : GoError
  frames : List (List Byte)
  framesClosed : Bool
  errCh : List GoError
  errClosed : Bool
  deriving DecidableEq

/-- A non-blocking send on a channel of capacity 1 (`select { case ch <- x: default: }`):
the value is buffered when the buffer has room and dropped otherwise. -/
def trySend {α : Type} (ch : List α) (x : α) : List α :=
  if ch.length < 1 then ch ++ [x] else ch

/-- The deferred function of `readLoop`: both channels are closed. -/
def FFmpegFrameSource.closeChannels (s : FFmpegFrameSource) : FFmpegFrameSource :=
  { s with framesClosed := true, errClosed := true }

/-- One pass through the `for` loop of `readLoop`. `doneAtTop` and `doneAtSend` say whether
`ctx.Done()` is ready at the first and at the second `select`; `preferDone` is the choice
Go makes when both the `ctx.Done()` case and the send case are ready. The `Bool` of the
result says whether the loop goes on; when it does not, the deferred close has run. -/
def FFmpegFrameSource.readLoopIter (s : FFmpegFrameSource)
    (doneAtTop doneAtSend preferDone : Bool) : FFmpegFrameSource × Bool :=
  if doneAtTop then (s.closeChannels, false)
  else
    match readMJPEGFrame s.atEnd s.reader with
    | .error err =>
      let s1 := { s with reader := [] }
      let s2 := if !err.Is .EOF then { s1 with errCh := trySend s1.errCh err } else s1
      (s2.closeChannels, false)
    | .ok (frame, rest) =>
      let s1 := { s with reader := rest }
      if doneAtSend && (preferDone || !decide (s1.frames.length < 1)) then
        (s1.closeChannels, false)
      else ({ s1 with frames := trySend s1.frames frame }, true)

/-- A frame as the round-trip property takes it: the first place where `0xFF 0xD9` occurs
in `F` is its last two bytes. -/
def firstEOIAtEnd (F : List Byte) : Prop :=
  ∀ i : Nat, i < F.length → F[i]? = some 0xFF → F[i + 1]? = some 0xD9 → i + 2 = F.length

instance (F : List Byte) : Decidable (firstEOIAtEnd F) := by
  unfold firstEOIAtEnd; infer_instance

/-- A frame that begins `FF D8`, ends `FF D9` and has no earlier `FF D9`. -/
def validFrame (F : List Byte) : Prop :=
  [0xFF, 0xD8] <+: F ∧ [0xFF, 0xD9] <:+ F ∧ firstEOIAtEnd F

instance (F : List Byte) : Decidable (validFrame F) := by
  unfold validFrame; infer_instance

/-! ### `utils/backoff.go` -/

/-- Fields of `utils.ExponentialBackoff`. `Base` and `Max` are `time.Duration`s, that is
`int64` counts of nanoseconds. -/
structure ExponentialBackoff where
  Base : Int
  Max : Int
  Jitter : Bool
  deriving DecidableEq

/-- Number of low bits that the conversion of the magnitude `a` to `float64` drops: the
number of halvings that bring `a` below `2^53`. The fuel bounds the count; an `int64`
magnitude is at most `2^63`, so 11 is enough. -/
def excessBits : Nat → Nat → Nat
  | 0, _ => 0
  | fuel + 1, a => if a < 2 ^ 53 then 0 else excessBits fuel (a / 2) + 1

/-- Conversion `float64(z)` of an `int64`: the nearest value with a 53-bit significand,
ties to even. The result is again an integer; it is `z` itself when `|z| < 2^53`. -/
def float64OfInt64 (z : Int) : Int :=
  let a := z.natAbs
  let e := excessBits 11 a
  let q := a / 2 ^ e
  let r := a % 2 ^ e
  let q1 := if 2 * r < 2 ^ e then q else if 2 ^ e < 2 * r then q + 1
    else if q % 2 = 0 then q else q + 1
  z.sign * ((q1 * 2 ^ e : Nat) : Int)

/-- The ways a `float64` can fail to fit `int64`: it lies above the range (`+Inf`
included), below it (`-Inf` included), or is not a number. -/
inductive OutOfRange where
  | above
  | below
  | nan
  deriving DecidableEq

/-- Conversion `time.Duration(d)` of a `float64` whose integer part is `t`: the fraction
is discarded, and `t` is the result when it fits `int64`. When it does not, Go leaves the
result to the implementation; `ovf` is what the implementation returns (on amd64 it is
`-2^63` in every case). -/
def int64OfFloat64 (ovf : OutOfRange → Int) (t : Int) : Int :=
  if t < -2 ^ 63 then ovf .below else if 2 ^ 63 ≤ t then ovf .above else t

/-- Number of halvings that bring the fraction `p / q` below `2^53`; the fuel bounds the
count. -/
def shiftUp : Nat → Nat → Nat → Nat
  | 0, _, _ => 0
  | fuel + 1, p, q => if p < q * 2 ^ 53 then 0 else shiftUp fuel p (2 * q) + 1

/-- Number of doublings that bring the fraction `p / q` up to `2^52`; the fuel bounds the
count. -/
def shiftDown : Nat → Nat → Nat → Nat
  | 0, _, _ => 0
  | fuel + 1, p, q => if q * 2 ^ 52 ≤ p then 0 else shiftDown fuel (2 * p) q + 1

/-- The integer nearest to the fraction `p / q`, a tie going to the even neighbour. -/
def roundHalfEven (p q : Nat) : Nat :=
  let f := p / q
  let r := p % q
  if 2 * r < q then f else if q < 2 * r then f + 1 else if f % 2 = 0 then f else f + 1

/-- Rounding of the non-negative fraction `p / q` to `float64`, to nearest and ties to
even, with the exponent unbounded: the fraction is scaled by the power of two that
brings it into `[2^52, 2^53)`, rounded to an integer significand and scaled back. The
result is again a fraction (numerator, denominator). The fuels `p` and `q + 52` are
enough for every input. -/
def float64Round (p q : Nat) : Nat × Nat :=
  if p = 0 ∨ q = 0 then (0, 1)
  else
    let up := shiftUp p p q
    if 0 < up then (roundHalfEven p (q * 2 ^ up) * 2 ^ up, 1)
    else
      let down := shiftDown (q + 52) p q
      (roundHalfEven (p * 2 ^ down) q, 2 ^ down)

/-- A `float64` multiplication of non-negative values: the exact product, rounded. -/
def float64Mul (x y : Nat × Nat) : Nat × Nat := float64Round (x.1 * y.1) (x.2 * y.2)

/-- A `float64` addition of non-negative values: the exact sum, rounded. -/
def float64Add (x y : Nat × Nat) : Nat × Nat :=
  float64Round (x.1 * y.2 + y.1 * x.2) (x.2 * y.2)

/-- Go `jitter := rand.Float64()*0.4 + 0.8` for the draw `rn / rd`: the constants are
the `float64` values nearest to `0.4` and `0.8`, and the product and the sum are each
rounded (the two operations are not fused, as on amd64). A draw is zero or at least
`2^-63`, so that no intermediate value is subnormal. -/
def jitterFactor (rn rd : Nat) : Nat × Nat :=
  float64Add (float64Mul (rn, rd) (float64Round 2 5)) (float64Round 4 5)

/-- Go `ExponentialBackoff.Duration(attempt)`. The draw of `rand.Float64()`, a `float64`
in `[0, 1)`, is the fraction `rn / rd`, and `ovf` is the result of an out-of-range
conversion to `int64` (see `int64OfFloat64`).

* `math.Pow(2, float64(attempt))` is `2^attempt` up to `attempt = 1023` and `+Inf` from
  1024 on, where the product with `float64(Base)` is `+Inf`, `-Inf` or (for `Base = 0`)
  not a number.
* `float64(b.Base) * 2^attempt` is exact, a multiplication by a power of two; a product
  too large for `float64` is far outside `int64` as well, so the conversion is out of
  range either way.
* `d *= jitter` is the product of the magnitude of `d` with `jitterFactor`, rounded to
  `float64`, with the sign of `d`; `time.Duration(d)` discards the fraction. No value on
  this path is small enough to be subnormal, and one too large for `float64` is outside
  `int64` whether rounded or replaced by an infinity. -/
def ExponentialBackoff.Duration (b : ExponentialBackoff) (attempt : Int) (rn rd : Nat)
    (ovf : OutOfRange → Int) : Int :=
  let attempt := if attempt < 0 then 0 else attempt
  let base := float64OfInt64 b.Base
  let dur :=
    if 1024 ≤ attempt then
      ovf (if 0 < base then .above else if base < 0 then .below else .nan)
    else
      let d := base * 2 ^ attempt.toNat
      if b.Jitter then
        let x := float64Mul (d.natAbs, 1) (jitterFactor rn rd)
        int64OfFloat64 ovf (d.sign * ((x.1 / x.2 : Nat) : Int))
      else int64OfFloat64 ovf d
  if b.Max > 0 ∧ dur > b.Max then b.Max else dur

/-- Result of an out-of-range `float64` to `int64` conversion on amd64: `-2^63`. -/
def amd64Overflow : OutOfRange → Int := fun _ => -2 ^ 63

/-- Value of a fraction as a rational number. -/
def ratOf (x : Nat × Nat) : ℚ := (x.1 : ℚ) / (x.2 : ℚ)

/-- Rounding of a rational to the nearest integer, a tie going to the even neighbour. -/
def rneQ (t : ℚ) : ℤ :=
  if 2 * (t - ⌊t⌋) < 1 then ⌊t⌋ else if 1 < 2 * (t - ⌊t⌋) then ⌊t⌋ + 1
  else if ⌊t⌋ % 2 = 0 then ⌊t⌋ else ⌊t⌋ + 1

/-- Per-camera configuration, `config.CameraConfig`. -/
structure CameraConfig where
  ID : String
  RTSPURL : String
  deriving DecidableEq

/-- Worker configuration, `config.Config`. The Go map `CameraConfigs` is an association
list with unique keys. -/
structure Config where
  AppEnv : String
  LogLevel : String
  FFmpegBin : String
  ProcessingFPS : Int
  BackendBaseURL : String
  BackendAlertEndpoint : String
  MediaMTXURL : String
  APIAddress : String
  CameraConfigs : AList (fun _ : String => CameraConfig)

/-- Go `strings.TrimRight(s, cutset)`: `s` without its trailing characters that occur in
`cutset`. -/
def TrimRight (s cutset : String) : String :=
  ⟨s.data.rdropWhile (fun c => cutset.data.contains c)⟩

/-- State of a `CameraWorker`: its configuration, the `running` flag, and whether its
context `ctx` is cancelled. The detector, dispatcher and logger handles carry no state of
their own here. -/
structure CameraWorker where
  cameraID : String
  rtspURL : String
  outputURL : String
  fps : Int
  ffmpegBin : String
  backoff : ExponentialBackoff
  running : Bool
  cancelled : Bool
  deriving DecidableEq

/-- Go `NewCameraWorker(cameraID, rtspURL, outputURL, ffmpegBin, fps, …)`. -/
def NewCameraWorker (cameraID rtspURL outputURL ffmpegBin : String) (fps : Int) :
    CameraWorker :=
  { cameraID := cameraID, rtspURL := rtspURL, outputURL := outputURL, fps := fps,
    ffmpegBin := ffmpegBin,
    backoff := { Base := 10 ^ 9, Max := 30 * 10 ^ 9, Jitter := true },
    running := false, cancelled := false }

/-- Go `(*CameraWorker).Start(parent)`: fails when `running` is already set
(`CompareAndSwap(false, true)`), otherwise sets it and derives the worker context from
`parent` (cancelled from the start when the parent is). The pipeline goroutine it spawns is
not part of this state. -/
def CameraWorker.Start (w : CameraWorker) (parentCancelled : Bool) :
    CameraWorker × Option GoError :=
  if w.running then (w, some (.msg ("camera " ++ w.cameraID ++ " already running")))
  else ({ w with running := true, cancelled := parentCancelled }, none)

/-- Go `(*CameraWorker).Stop()`: a no-op unless `running` is set
(`CompareAndSwap(true, false)`); otherwise clears it and cancels the worker context. -/
def CameraWorker.Stop (w : CameraWorker) : CameraWorker :=
  if w.running then { w with running := false, cancelled := true } else w

/-- State of a `CameraManager`: whether its context is cancelled, the configuration, and
the registry `workers` (a Go map, kept as an association list with unique keys). -/
structure CameraManager where
  cancelled : Bool
  cfg : Config
  ffmpegBin : String
  fps : Int
  workers : AList (fun _ : String => CameraWorker)

/-- Go `NewCameraManager(parent, cfg, …)`. -/
def NewCameraManager (parentCancelled : Bool) (cfg : Config) : CameraManager :=
  { cancelled := parentCancelled, cfg := cfg, ffmpegBin := cfg.FFmpegBin,
    fps := cfg.ProcessingFPS, workers := ∅ }

/-- Go `(*CameraManager).StartCamera(cameraID)`: the new manager state and the returned
error (`none` for `nil`). -/
def CameraManager.StartCamera (m : CameraManager) (cameraID : String) :
    CameraManager × Option GoError :=
  match m.workers.lookup cameraID with
  | some _ => (m, some (.msg ("camera " ++ cameraID ++ " already running")))
  | none =>
    match m.cfg.CameraConfigs.lookup cameraID with
    | none => (m, some (.msg ("camera " ++ cameraID ++ " not configured")))
    | some camCfg =>
      let outputURL := TrimRight m.cfg.MediaMTXURL "/" ++ "/" ++ cameraID
      let worker := NewCameraWorker cameraID camCfg.RTSPURL outputURL m.ffmpegBin m.fps
      match worker.Start m.cancelled with
      | (_, some err) => (m, some err)
      | (started, none) => ({ m with workers := m.workers.insert cameraID started }, none)

/-- Go `(*CameraManager).StopCamera(cameraID)`: the new manager state and the worker as
`Stop` left it, if one was registered. -/
def CameraManager.StopCamera (m : CameraManager) (cameraID : String) :
    CameraManager × Option CameraWorker :=
  match m.workers.lookup cameraID with
  | some worker => ({ m with workers := m.workers.erase cameraID }, some worker.Stop)
  | none => (m, none)

/-- Go `image.Point`. -/
structure Point where
  X : Int
  Y : Int
  deriving DecidableEq

/-- Go `image.Rectangle`. -/
structure Rectangle where
  Min : Point
  Max : Point
  deriving DecidableEq

/-- A detected face, `camera.BoundingBox`; the `float64` score is kept as a rational. -/
structure BoundingBox where
  Rect : Rectangle
  Score : ℚ
  deriving DecidableEq

/-- The boxes detected in one frame, `camera.DetectionResult`. -/
structure DetectionResult where
  Boxes : List BoundingBox
  deriving DecidableEq

/-- The alert payload, `camera.Alert`; a `nil` metadata map is `none`. -/
structure Alert where
  CameraID : String
  Timestamp : Int
  Detections : List BoundingBox
  Snapshot : String
  Metadata : Option (List (String × String))
  deriving DecidableEq

/-- The 64 characters of the standard base64 alphabet. -/
def base64Alphabet : List Char :=
  "ABCDEFGHIJKLMNOPQRSTUVWXYZabcdefghijklmnopqrstuvwxyz0123456789+/".data

/-- The character for a 6-bit value. -/
def base64Char (n : Nat) : Char :=
  base64Alphabet.getD n 'A'

/-- Go `base64.StdEncoding.EncodeToString`, on the characters of the result: three bytes
give four characters; a last group of one or two bytes is padded with `=`. -/
def base64Encode : List Byte → List Char
  | a :: b :: c :: rest =>
    let n := a.val * 65536 + b.val * 256 + c.val
    base64Char (n / 262144) :: base64Char (n / 4096 % 64) :: base64Char (n / 64 % 64)
      :: base64Char (n % 64) :: base64Encode rest
  | [a, b] =>
    let n := a.val * 65536 + b.val * 256
    [base64Char (n / 262144), base64Char (n / 4096 % 64), base64Char (n / 64 % 64), '=']
  | [a] =>
    let n := a.val * 65536
    [base64Char (n / 262144), base64Char (n / 4096 % 64), '=', '=']
  | [] => []

/-- The 6-bit value of a character of the standard base64 alphabet (RFC 4648, table 1):
`A` to `Z` are 0 to 25, `a` to `z` are 26 to 51, `0` to `9` are 52 to 61, `+` is 62 and
`/` is 63; no other character has a value. -/
def base64Value (c : Char) : Option Nat :=
  let n := c.toNat
  if 65 ≤ n ∧ n ≤ 90 then some (n - 65)
  else if 97 ≤ n ∧ n ≤ 122 then some (n - 97 + 26)
  else if 48 ≤ n ∧ n ≤ 57 then some (n - 48 + 52)
  else if n = 43 then some 62
  else if n = 47 then some 63
  else none

/-- Decoding of standard base64 (RFC 4648, section 4), written from the standard and not
from the encoder: four characters carry 24 bits, that is three bytes; the text may end
with a group `xx==` (one byte) or `xxx=` (two bytes), whose unused low bits must be
zero. Every other text is rejected. -/
def base64Decode : List Char → Option (List Byte)
  | [] => some []
  | c1 :: c2 :: c3 :: c4 :: rest =>
    match base64Value c1, base64Value c2 with
    | some v1, some v2 =>
      if c3 = '=' then
        if c4 = '=' ∧ rest = [] ∧ v2 % 16 = 0 then some [Fin.ofNat (v1 * 4 + v2 / 16)]
        else none
      else
        match base64Value c3 with
        | some v3 =>
          if c4 = '=' then
            if rest = [] ∧ v3 % 4 = 0 then
              some [Fin.ofNat (v1 * 4 + v2 / 16), Fin.ofNat (v2 % 16 * 16 + v3 / 4)]
            else none
          else
            match base64Value c4 with
            | some v4 =>
              (base64Decode rest).map (fun t =>
                Fin.ofNat (v1 * 4 + v2 / 16) :: Fin.ofNat (v2 % 16 * 16 + v3 / 4)
                  :: Fin.ofNat (v3 % 4 * 64 + v4) :: t)
            | none => none
        | none => none
    | _, _ => none
  | _ => none

/-- What the worker does to its collaborators, in the order it does it. -/
inductive Effect where
  | sourceStarted
  | publisherStarted
  | sourceClose
  | publisherClose
  | warn (text : String) (err : GoError)
  | dispatch (alert : Alert)
  | publish (frame : List Byte)
  deriving DecidableEq

/-- What the collaborators answer while one frame is processed: the result of
`w.handleFrame(frame, fpsCounter)` (decode, detect, annotate, encode), the clock reading
`time.Now().Unix()` taken by `sendAlert`, the result of `Dispatch` and the result of
`Publish` (`none` for a `nil` error). An answer is used only if the call is made. -/
structure FrameOutcome where
  handled : Except GoError (List Byte × DetectionResult)
  now : Int
  dispatchErr : Option GoError
  publishErr : Option GoError

/-- The case that the `select` of `processOnce` takes: the context is done (with
`ctx.Err()`), a receive on `source.Err()` (`none` when the channel is closed), a receive
on `source.Frames()` that finds the channel closed, or a delivered frame. -/
inductive SelectEvent where
  | ctxDone (err : GoError)
  | sourceErr (received : Option GoError)
  | framesClosed
  | frame (frame : List Byte) (o : FrameOutcome)

/-- The zero value of `BoundingBox`. -/
def zeroBoundingBox : BoundingBox :=
  { Rect := { Min := { X := 0, Y := 0 }, Max := { X := 0, Y := 0 } }, Score := 0 }

/-- Go `make([]T, n)`: a slice of `n` zero values. -/
def goMake {α : Type} (n : Nat) (zero : α) : List α :=
  List.replicate n zero

/-- Go `copy(dst, src)`: the first `min(len(dst), len(src))` elements of `dst` are
overwritten with those of `src`; the result is the new content of `dst`. -/
def goCopy {α : Type} (dst src : List α) : List α :=
  src.take dst.length ++ dst.drop src.length

/-- A Go slice of boxes as a reference into memory: the backing array (arrays are
numbered in the order of their allocation), the offset of the first element in that
array, and the length. -/
structure BoxSlice where
  array : Nat
  off : Nat
  len : Nat
  deriving DecidableEq

/-- The backing arrays of box slices allocated so far, in the order of allocation. -/
structure BoxHeap where
  arrays : List (List BoundingBox)
  deriving DecidableEq

/-- The elements of a slice. -/
def BoxHeap.read (h : BoxHeap) (s : BoxSlice) : List BoundingBox :=
  ((h.arrays.getD s.array []).drop s.off).take s.len

/-- The assignment `s[i] = v`; out of range it panics in Go and changes nothing here. -/
def BoxHeap.store (h : BoxHeap) (s : BoxSlice) (i : Nat) (v : BoundingBox) : BoxHeap :=
  if i < s.len then
    { arrays := h.arrays.set s.array ((h.arrays.getD s.array []).set (s.off + i) v) }
  else h

/-- Go `make([]BoundingBox, n)`: a new backing array of `n` zero values, and the slice
over it. -/
def BoxHeap.make (h : BoxHeap) (n : Nat) : BoxHeap × BoxSlice :=
  ({ arrays := h.arrays ++ [goMake n zeroBoundingBox] },
   { array := h.arrays.length, off := 0, len := n })

/-- Go `copy(dst, src)` on slices in memory: the elements of `src` are read first, then
written over the first elements of `dst` in its backing array. -/
def BoxHeap.copy (h : BoxHeap) (dst src : BoxSlice) : BoxHeap :=
  let a := h.arrays.getD dst.array []
  { arrays := h.arrays.set dst.array
      (a.take dst.off ++ goCopy (h.read dst) (h.read src) ++ a.drop (dst.off + dst.len)) }

/-- The alert as `sendAlert` holds it in memory: `Detections` is a slice, a reference to
a backing array. -/
structure AlertRef where
  CameraID : String
  Timestamp : Int
  Detections : BoxSlice
  Snapshot : String
  Metadata : Option (List (String × String))
  deriving DecidableEq

/-- The alert that a reader of the memory `h` finds behind an `AlertRef`. -/
def AlertRef.load (a : AlertRef) (h : BoxHeap) : Alert :=
  { CameraID := a.CameraID, Timestamp := a.Timestamp, Detections := h.read a.Detections,
    Snapshot := a.Snapshot, Metadata := a.Metadata }

/-- Go `(*CameraWorker).sendAlert(ctx, frame, detection)` up to the call of `Dispatch`, at
the level of memory: `detection.Boxes` is the slice `detBoxes` in the memory `h`; the
result is the memory after `make` and `copy`, and the alert that is passed to
`Dispatch`. -/
def CameraWorker.sendAlertMem (w : CameraWorker) (h : BoxHeap) (now : Int)
    (frame : List Byte) (detBoxes : BoxSlice) : BoxHeap × AlertRef :=
  let snapshot : String := ⟨base64Encode frame⟩
  let made := h.make detBoxes.len
  let boxes := made.2
  let h2 := made.1.copy boxes detBoxes
  (h2, { CameraID := w.cameraID, Timestamp := now, Detections := boxes, Snapshot := snapshot,
         Metadata := none })

/-- Go `(*CameraWorker).sendAlert(ctx, frame, detection)`: builds the alert (see
`sendAlertMem`; the memory holds the array of `detection.Boxes`) and calls `Dispatch` with
it; the result is the effect, with the alert as `Dispatch` reads it, and the error
`Dispatch` returns. -/
def CameraWorker.sendAlert (w : CameraWorker) (now : Int) (dispatchErr : Option GoError)
    (frame : List Byte) (detection : DetectionResult) : List Effect × Option GoError :=
  let built := w.sendAlertMem { arrays := [detection.Boxes] } now frame
    { array := 0, off := 0, len := detection.Boxes.length }
  ([.dispatch (built.2.load built.1)], dispatchErr)

/-- The body of the `case frame, ok := <-source.Frames()` branch of `processOnce` for a
delivered frame: the effects, and the error with which `processOnce` returns (`none` when
the loop goes on). -/
def CameraWorker.frameStep (w : CameraWorker) (_frame : List Byte) (o : FrameOutcome) :
    List Effect × Option GoError :=
  match o.handled with
  | .error err => ([.warn "process frame" err], none)
  | .ok (processed, detection) =>
    let alertEffects :=
      if detection.Boxes.length > 0 then
        match w.sendAlert o.now o.dispatchErr processed detection with
        | (effs, some err) => effs ++ [.warn "send alert" err]
        | (effs, none) => effs
      else []
    match o.publishErr with
    | some err => (alertEffects ++ [.publish processed], some (.wrap "publish frame" err))
    | none => (alertEffects ++ [.publish processed], none)

/-- The `for { select { … } }` loop of `processOnce` run against a schedule of select
cases: the effects, and the error with which `processOnce` returns; `none` means that the
schedule is used up and the loop is waiting in its `select`. -/
def CameraWorker.processLoop (w : CameraWorker) : List SelectEvent → List Effect × Option GoError
  | [] => ([], none)
  | .ctxDone err :: _ => ([], some err)
  | .sourceErr (some err) :: _ => ([], some (.wrap "source error" err))
  | .sourceErr none :: _ => ([], some .EOF)
  | .framesClosed :: _ => ([], some .EOF)
  | .frame f o :: rest =>
    match w.frameStep f o with
    | (effs, some err) => (effs, some err)
    | (effs, none) =>
      let r := w.processLoop rest
      (effs ++ r.1, r.2)

/-- Go `(*CameraWorker).processOnce(ctx)`. `sourceStart` and `publisherStart` are the
results of the two `Start` calls. The two deferred `Close` calls are registered only
after both starts succeeded and run, publisher first, when the function returns. -/
def CameraWorker.processOnce (w : CameraWorker) (sourceStart publisherStart : Option GoError)
    (events : List SelectEvent) : List Effect × Option GoError :=
  match sourceStart with
  | some err => ([], some (.wrap "start source" err))
  | none =>
    match publisherStart with
    | some err => ([.sourceStarted], some (.wrap "start publisher" err))
    | none =>
      let r := w.processLoop events
      match r.2 with
      | some err =>
        ([.sourceStarted, .publisherStarted] ++ r.1 ++ [.publisherClose, .sourceClose], some err)
      | none => ([.sourceStarted, .publisherStarted] ++ r.1, none)

/-- Number of `Dispatch` calls in a trace. -/
def countDispatch (t : List Effect) : Nat :=
  t.countP (fun e => match e with
    | .dispatch _ => true
    | _ => false)

/-! ### `camera/worker.go` (retry loop) -/

/-- What the environment answers during one pass through the loop of `run`: the results
of the two `Start` calls and the schedule of select cases for `processOnce`, the draw
`rn / rd` of `rand.Float64()` used by the backoff, and whether the context is done before
the timer of the sleep fires. -/
structure AttemptInput where
  sourceStart : Option GoError
  publisherStart : Option GoError
  events : List SelectEvent
  rn : Nat
  rd : Nat
  cancelledInSleep : Bool

/-- What `run` does, in order: a call of `processOnce` with its effects and its result
(`none` while the call has not returned), the warning logged before a retry, and the
wait `select { case <-time.After(delay): case <-w.ctx.Done(): }`. -/
inductive RunStep where
  | attempt (effects : List Effect) (err : Option GoError)
  | warn (text : String) (err : GoError)
  | sleep (delay : Int)
  deriving DecidableEq

/-- The `for` loop of `(*CameraWorker).run` with the local variable `attempt` as an
argument, run against one input per pass. The result is the trace and whether `run` has
returned; it has not when the inputs are used up or the last `processOnce` is still
waiting. Every `return` of `processOnce` carries an error, so the final `return` of the
loop body, taken when `processOnce` returns `nil`, is never reached. -/
def CameraWorker.runLoop (w : CameraWorker) (ovf : OutOfRange → Int) :
    Int → List AttemptInput → List RunStep × Bool
  | _, [] => ([], false)
  | attempt, a :: rest =>
    match w.processOnce a.sourceStart a.publisherStart a.events with
    | (effs, none) => ([.attempt effs none], false)
    | (effs, some err) =>
      if err.Is .Canceled || err.Is .DeadlineExceeded then
        ([.attempt effs (some err)], true)
      else
        let attempt1 := attempt + 1
        let delay := w.backoff.Duration attempt1 a.rn a.rd ovf
        if a.cancelledInSleep then
          ([.attempt effs (some err), .warn "camera pipeline error, retrying" err,
            .sleep delay], true)
        else
          let r := CameraWorker.runLoop w ovf attempt1 rest
          (.attempt effs (some err) :: .warn "camera pipeline error, retrying" err ::
            .sleep delay :: r.1, r.2)

/-- Go `(*CameraWorker).run()`: the loop started with `attempt := 0`. -/
def CameraWorker.run (w : CameraWorker) (ovf : OutOfRange → Int)
    (inputs : List AttemptInput) : List RunStep × Bool :=
  w.runLoop ovf 0 inputs

/-- The delays of the sleeps in a trace of `run`, in order. -/
def sleepDelays : List RunStep → List Int
  | [] => []
  | .sleep d :: rest => d :: sleepDelays rest
  | _ :: rest => sleepDelays rest

/-- Number of source subprocesses that a trace has started and not closed. -/
def liveSources : List Effect → Int
  | [] => 0
  | .sourceStarted :: rest => liveSources rest + 1
  | .sourceClose :: rest => liveSources rest - 1
  | _ :: rest => liveSources rest

/-- Number of publisher subprocesses that a trace has started and not closed. -/
def livePublishers : List Effect → Int
  | [] => 0
  | .publisherStarted :: rest => livePublishers rest + 1
  | .publisherClose :: rest => livePublishers rest - 1
  | _ :: rest => livePublishers rest

/-! ### `config/config.go` (camera list) -/

/-- Go `unicode.IsSpace`: the Latin-1 spaces `\t`, `\n`, `\v`, `\f`, `\r`, space, U+0085,
U+00A0, and the other characters with the White_Space property. -/
def isSpace (c : Char) : Bool :=
  let n := c.toNat
  n == 9 || n == 10 || n == 11 || n == 12 || n == 13 || n == 32 || n == 0x85 || n == 0xA0
    || n == 0x1680 || (decide (0x2000 ≤ n) && decide (n ≤ 0x200A)) || n == 0x2028
    || n == 0x2029 || n == 0x202F || n == 0x205F || n == 0x3000

/-- Go `strings.TrimSpace`, on the characters of the string: leading and trailing white
space removed. -/
def trimSpace (s : List Char) : List Char :=
  (s.dropWhile isSpace).rdropWhile isSpace

/-- Go `strings.SplitN(s, sep, 2)` for a one-character separator: `s` itself when it does
not contain `sep`, otherwise the part before the first `sep` and the part after it. -/
def splitN2 (s : List Char) (sep : Char) : List (List Char) :=
  if sep ∈ s then [s.takeWhile (· != sep), (s.dropWhile (· != sep)).drop 1] else [s]

/-- The `for _, entry := range entries` loop of `parseCameraConfigs`, with the map
`configs` as an argument. -/
def parseEntries : List (List Char) → AList (fun _ : String => CameraConfig) →
    Except GoError (AList (fun _ : String => CameraConfig))
  | [], configs => .ok configs
  | entry :: rest, configs =>
    let entry := trimSpace entry
    if entry = [] then parseEntries rest configs
    else
      match splitN2 entry '=' with
      | [p0, p1] =>
        let id := trimSpace p0
        let url := trimSpace p1
        if id = [] ∨ url = [] then
          .error (.msg ("invalid camera config entry: " ++ String.mk entry))
        else parseEntries rest (configs.insert (String.mk id) ⟨String.mk id, String.mk url⟩)
      | _ => .error (.msg ("invalid camera config entry: " ++ String.mk entry))

/-- Go `parseCameraConfigs(val)`; `strings.Split(val, ";")` is `splitOn`. -/
def parseCameraConfigs (val : String) :
    Except GoError (AList (fun _ : String => CameraConfig)) :=
  if val = "" then .ok ∅
  else parseEntries (val.data.splitOn ';') ∅

/-- A string without leading or trailing white space: neither its first nor its last
character is a space. -/
def noOuterSpace (s : String) : Prop :=
  s.data.head?.map isSpace ≠ some true ∧ s.data.getLast?.map isSpace ≠ some true

instance (s : String) : Decidable (noOuterSpace s) := by
  unfold noOuterSpace; infer_instance

/-- An `id=url` pair as the encoding takes it: both parts non-empty, without leading or
trailing white space and without `;`, and no `=` in the id. -/
def wellFormedPair (p : String × String) : Prop :=
  p.1 ≠ "" ∧ p.2 ≠ "" ∧ noOuterSpace p.1 ∧ noOuterSpace p.2 ∧
    ';' ∉ p.1.data ∧ ';' ∉ p.2.data ∧ '=' ∉ p.1.data

instance (p : String × String) : Decidable (wellFormedPair p) := by
  unfold wellFormedPair; infer_instance

/-- The pairs written as `id=url` and joined with `;`. -/
def encodeCameraConfigs (pairs : List (String × String)) : String :=
  ⟨[';'].intercalate (pairs.map (fun p => p.1.data ++ '=' :: p.2.data))⟩

/-- A `;`-separated entry that `parseCameraConfigs` rejects: it is not blank after
trimming and either contains no `=`, or the part before its first `=` or the part after
it is blank after trimming. -/
def malformedEntry (entry : List Char) : Prop :=
  trimSpace entry ≠ [] ∧
    ('=' ∉ trimSpace entry ∨
      trimSpace ((trimSpace entry).takeWhile (· != '=')) = [] ∨
      trimSpace (((trimSpace entry).dropWhile (· != '=')).drop 1) = [])

instance (entry : List Char) : Decidable (malformedEntry entry) := by
  unfold malformedEntry; infer_instance

/-! ### `camera/worker.go` (`drawDetections`) with `image.Rectangle` and `image.RGBA` -/

/-- Go `color.RGBA`. -/
structure ColorRGBA where
  R : Byte
  G : Byte
  B : Byte
  A : Byte
  deriving DecidableEq

/-- Go `image.RGBA`: the bounds `Rect` and the pixels. The pixel buffer `Pix` is read
through `pixel x y`, the colour stored for the point `(x, y)`; only points inside `Rect`
have storage. -/
structure ImageRGBA where
  Rect : Rectangle
  pixel : Int → Int → ColorRGBA

/-- Go `Point.In(r)`. -/
def Point.In (p : Point) (r : Rectangle) : Bool :=
  decide (r.Min.X ≤ p.X) && decide (p.X < r.Max.X) &&
    decide (r.Min.Y ≤ p.Y) && decide (p.Y < r.Max.Y)

/-- Go `Rectangle.Empty()`. -/
def Rectangle.Empty (r : Rectangle) : Bool :=
  decide (r.Min.X ≥ r.Max.X) || decide (r.Min.Y ≥ r.Max.Y)

/-- Go `Rectangle.Intersect(s)`: the largest rectangle contained in both, or the zero
rectangle when that is empty. -/
def Rectangle.Intersect (r s : Rectangle) : Rectangle :=
  let minX := if r.Min.X < s.Min.X then s.Min.X else r.Min.X
  let minY := if r.Min.Y < s.Min.Y then s.Min.Y else r.Min.Y
  let maxX := if r.Max.X > s.Max.X then s.Max.X else r.Max.X
  let maxY := if r.Max.Y > s.Max.Y then s.Max.Y else r.Max.Y
  let r1 : Rectangle := { Min := { X := minX, Y := minY }, Max := { X := maxX, Y := maxY } }
  if r1.Empty then { Min := { X := 0, Y := 0 }, Max := { X := 0, Y := 0 } } else r1

/-- Go `(*image.RGBA).Set(x, y, c)` for a colour that is already a `color.RGBA`: nothing
happens for a point outside `Rect`; otherwise the pixel is overwritten. -/
def ImageRGBA.Set (img : ImageRGBA) (x y : Int) (c : ColorRGBA) : ImageRGBA :=
  if !(Point.In { X := x, Y := y } img.Rect) then img
  else { img with pixel := fun a b => if a = x ∧ b = y then c else img.pixel a b }

/-- The colour `color.RGBA{R: 255, G: 0, B: 0, A: 255}`. -/
def red : ColorRGBA := { R := 255, G := 0, B := 0, A := 255 }

/-- The loop `for i := lo; i <= hi; i++ { body }` over a state. -/
def forLoop {α : Type} (lo hi : Int) (body : Int → α → α) (init : α) : α :=
  (List.range (hi + 1 - lo).toNat).foldl (fun s (k : Nat) => body (lo + (k : Int)) s) init

/-- The body of the loop of `drawDetections` for one box. -/
def drawBox (img : ImageRGBA) (box : BoundingBox) : ImageRGBA :=
  let rect := box.Rect.Intersect img.Rect
  if rect.Empty then img
  else
    let top := rect.Min.Y
    let bottom := rect.Max.Y - 1
    let left := rect.Min.X
    let right := rect.Max.X - 1
    let img1 := forLoop left right (fun x im => (im.Set x top red).Set x bottom red) img
    forLoop top bottom (fun y im => (im.Set left y red).Set right y red) img1

/-- Go `(*CameraWorker).drawDetections(img, detection)`. -/
def drawDetections (img : ImageRGBA) (detection : DetectionResult) : ImageRGBA :=
  detection.Boxes.foldl drawBox img

/-- The point `(x, y)` lies on the outline of the non-empty rectangle `r`: in its first
or last row, or in its first or last column. -/
def onOutline (r : Rectangle) (x y : Int) : Prop :=
  r.Empty = false ∧
    ((r.Min.X ≤ x ∧ x ≤ r.Max.X - 1 ∧ (y = r.Min.Y ∨ y = r.Max.Y - 1)) ∨
     (r.Min.Y ≤ y ∧ y ≤ r.Max.Y - 1 ∧ (x = r.Min.X ∨ x = r.Max.X - 1)))

instance (r : Rectangle) (x y : Int) : Decidable (onOutline r x y) := by
  unfold onOutline; infer_instance

/-- Relation between an image and the image obtained by painting red exactly the points
that satisfy `P`. -/
def Painted (P : Int → Int → Prop) (img img1 : ImageRGBA) : Prop :=
  img1.Rect = img.Rect ∧
    ∀ a b, (P a b → img1.pixel a b = red) ∧ (¬ P a b → img1.pixel a b = img.pixel a b)

/-! ### `ffmpeg_frame_source.go` (frame channel) -/

/-- State of the source right after `Start`: both channels made and empty, `readLoop`
about to run on the given stream. -/
def FFmpegFrameSource.started (reader : List Byte) (atEnd : GoError) : FFmpegFrameSource :=
  { reader := reader, atEnd := atEnd, frames := [], framesClosed := false,
    errCh := [], errClosed := false }

/-- A receive of the consumer on `source.Frames()` that does not block: the oldest
buffered frame, if any, and the state without it. -/
def FFmpegFrameSource.recvFrame (s : FFmpegFrameSource) :
    Option (List Byte) × FFmpegFrameSource :=
  match s.frames with
  | [] => (none, s)
  | f :: rest => (some f, { s with frames := rest })

/-- A receive of the consumer on `source.Err()` that does not block. -/
def FFmpegFrameSource.recvErr (s : FFmpegFrameSource) :
    Option GoError × FFmpegFrameSource :=
  match s.errCh with
  | [] => (none, s)
  | e :: rest => (some e, { s with errCh := rest })

/-- The states of a started source that the reader goroutine and the consumer can bring
about: a pass of `readLoop` while the loop is running, under any timing of the
cancellation, and receives of the consumer on either channel. -/
inductive FFmpegFrameSource.Reachable : FFmpegFrameSource → Prop where
  | start (reader : List Byte) (atEnd : GoError) :
      FFmpegFrameSource.Reachable (FFmpegFrameSource.started reader atEnd)
  | pass (s : FFmpegFrameSource) (doneAtTop doneAtSend preferDone : Bool) :
      FFmpegFrameSource.Reachable s → s.framesClosed = false →
      FFmpegFrameSource.Reachable (s.readLoopIter doneAtTop doneAtSend preferDone).1
  | recvFrame (s : FFmpegFrameSource) :
      FFmpegFrameSource.Reachable s → FFmpegFrameSource.Reachable s.recvFrame.2
  | recvErr (s : FFmpegFrameSource) :
      FFmpegFrameSource.Reachable s → FFmpegFrameSource.Reachable s.recvErr.2

/-- The first `n` passes of `readLoop` with the context never done and no receive of
the consumer in between; the run stops early when the loop ends. -/
def FFmpegFrameSource.readLoopN : Nat → FFmpegFrameSource → FFmpegFrameSource
  | 0, s => s
  | n + 1, s =>
    match s.readLoopIter false false false with
    | (s1, true) => FFmpegFrameSource.readLoopN n s1
    | (s1, false) => s1

/-! ## Theorems -/

/-! ### MJPEG framer -/

theorem endsWithEOI_iff (l : List Byte) : endsWithEOI l = true ↔ [0xFF, 0xD9] <:+ l := by
  induction l using List.reverseRecOn with
  | nil => simp [endsWithEOI]
  | append_singleton l b _ =>
    induction l using List.reverseRecOn with
    | nil =>
      simp only [endsWithEOI, List.IsSuffix]
      constructor
      · intro h; simp at h
      · rintro ⟨t, ht⟩
        have := congrArg List.length ht
        simp at this
    | append_singleton l a _ =>
      have h1 : (l ++ [a, b]).getD (l.length) 0 = a := by
        rw [List.getD_append_right _ _ _ _ (le_refl _)]; simp
      have h2 : (l ++ [a, b]).getD (l.length + 1) 0 = b := by
        rw [List.getD_append_right _ _ _ _ (Nat.le_succ _)]; simp
      have e : l ++ [a] ++ [b] = l ++ [a, b] := by simp
      rw [e]
      simp only [endsWithEOI, List.length_append, List.length_cons, List.length_nil]
      simp only [Nat.add_sub_cancel, show l.length + (0 + 1 + 1) - 1 = l.length + 1 by omega,
        h1, h2]
      constructor
      · intro h
        simp at h
        obtain ⟨ha, hb⟩ := h
        subst ha; subst hb
        exact ⟨l, rfl⟩
      · rintro ⟨t, ht⟩
        have := List.append_inj' ht (by simp)
        simp at this
        simp [this.2.1, this.2.2]

theorem loop_nil (atEnd : GoError) (frame : List Byte) :
    readMJPEGFrameLoop atEnd frame [] = .error atEnd := by
  simp [readMJPEGFrameLoop]

theorem loop_acc_cons (atEnd : GoError) (frame : List Byte) (h : frame ≠ []) (b : Byte)
    (rest : List Byte) :
    readMJPEGFrameLoop atEnd frame (b :: rest) =
      if endsWithEOI (frame ++ [b]) then .ok (frame ++ [b], rest)
      else readMJPEGFrameLoop atEnd (frame ++ [b]) rest := by
  cases rest with
  | nil => simp [readMJPEGFrameLoop, h, loop_nil]
  | cons n r => simp [readMJPEGFrameLoop, h]

theorem loop_search_cons (atEnd : GoError) (b : Byte) (rest : List Byte) :
    readMJPEGFrameLoop atEnd [] (b :: rest) =
      if b = 0xFF then
        match rest with
        | [] => .error atEnd
        | next :: r =>
          if next = 0xD8 then readMJPEGFrameLoop atEnd [0xFF, 0xD8] r
          else readMJPEGFrameLoop atEnd [] r
      else readMJPEGFrameLoop atEnd [] rest := by
  cases rest with
  | nil => simp [readMJPEGFrameLoop]
  | cons n r => simp [readMJPEGFrameLoop]

theorem loop_acc_ok (atEnd : GoError) (reader : List Byte) :
    ∀ (frame f rest : List Byte), frame ≠ [] →
      readMJPEGFrameLoop atEnd frame reader = .ok (f, rest) →
      ∃ mid, mid ≠ [] ∧ f = frame ++ mid ∧ reader = mid ++ rest ∧ [0xFF, 0xD9] <:+ f := by
  induction reader with
  | nil => intro frame f rest _ h; simp [loop_nil] at h
  | cons b r ih =>
    intro frame f rest hne h
    rw [loop_acc_cons atEnd frame hne] at h
    by_cases he : endsWithEOI (frame ++ [b]) = true
    · simp only [he, if_true, Except.ok.injEq, Prod.mk.injEq] at h
      obtain ⟨h1, h2⟩ := h
      subst h1; subst h2
      exact ⟨[b], by simp, rfl, rfl, (endsWithEOI_iff _).1 he⟩
    · simp only [he] at h
      obtain ⟨mid, _, h2, h3, h4⟩ := ih (frame ++ [b]) f rest (by simp) h
      exact ⟨b :: mid, by simp, by simp [h2], by simp [h3], h4⟩

theorem loop_search_ok (atEnd : GoError) (n : Nat) :
    ∀ (reader f rest : List Byte), reader.length ≤ n →
      readMJPEGFrameLoop atEnd [] reader = .ok (f, rest) →
      ∃ pre, reader = pre ++ f ++ rest ∧ [0xFF, 0xD8] <+: f ∧ [0xFF, 0xD9] <:+ f := by
  induction n with
  | zero =>
    intro reader f rest hl h
    have : reader = [] := List.length_eq_zero.1 (Nat.le_zero.1 hl)
    subst this
    simp [loop_nil] at h
  | succ n ih =>
    intro reader f rest hl h
    cases reader with
    | nil => simp [loop_nil] at h
    | cons b r =>
      rw [loop_search_cons] at h
      by_cases hb : b = 0xFF
      · simp only [hb, if_true] at h
        cases r with
        | nil => simp at h
        | cons nx r2 =>
          simp only at h
          by_cases hn : nx = 0xD8
          · simp only [hn, if_true] at h
            obtain ⟨mid, _, h2, h3, h4⟩ := loop_acc_ok atEnd r2 _ f rest (by simp) h
            refine ⟨[], ?_, ?_, h4⟩
            · simp [hb, hn, h2, h3]
            · exact ⟨mid, h2.symm⟩
          · simp only [hn, if_false] at h
            have hl2 : r2.length ≤ n := by simp at hl; omega
            obtain ⟨pre, h1, h2, h3⟩ := ih r2 f rest hl2 h
            exact ⟨b :: nx :: pre, by simp [h1], h2, h3⟩
      · simp only [hb, if_false] at h
        have hl2 : r.length ≤ n := by simp at hl; omega
        obtain ⟨pre, h1, h2, h3⟩ := ih r f rest hl2 h
        exact ⟨b :: pre, by simp [h1], h2, h3⟩

theorem readMJPEGFrame_ok (atEnd : GoError) (reader f rest : List Byte)
    (h : readMJPEGFrame atEnd reader = .ok (f, rest)) :
    ∃ pre, reader = pre ++ f ++ rest ∧ [0xFF, 0xD8] <+: f ∧ [0xFF, 0xD9] <:+ f :=
  loop_search_ok atEnd reader.length reader f rest (le_refl _) h

theorem frame_length_ge (f : List Byte) (h1 : [0xFF, 0xD8] <+: f) : 2 ≤ f.length := by
  obtain ⟨t, rfl⟩ := h1
  simp

theorem readFrames_spec (atEnd : GoError) (fuel : Nat) :
    ∀ S : List Byte, S.length < fuel →
      ∃ frames, readFrames atEnd fuel S = some frames ∧
        (∀ f ∈ frames, [0xFF, 0xD8] <+: f ∧ [0xFF, 0xD9] <:+ f) ∧
        ∃ gaps tail, gaps.length = frames.length ∧
          S = (List.zipWith (· ++ ·) gaps frames).flatten ++ tail := by
  induction fuel with
  | zero => intro S h; omega
  | succ fuel ih =>
    intro S hS
    cases hr : readMJPEGFrame atEnd S with
    | error e =>
      exact ⟨[], by simp [readFrames, hr], by simp, [], S, rfl, by simp⟩
    | ok p =>
      obtain ⟨f, rest⟩ := p
      obtain ⟨pre, h1, h2, h3⟩ := readMJPEGFrame_ok atEnd S f rest hr
      have hlen : rest.length < fuel := by
        have := frame_length_ge f h2
        have := congrArg List.length h1
        simp at this
        omega
      obtain ⟨fs, e1, e2, gaps, tail, e3, e4⟩ := ih rest hlen
      refine ⟨f :: fs, by simp [readFrames, hr, e1], ?_, pre :: gaps, tail, by simp [e3], ?_⟩
      · intro g hg
        rcases List.mem_cons.1 hg with rfl | hg
        · exact ⟨h2, h3⟩
        · exact e2 g hg
      · rw [h1]
        conv_lhs => rw [e4]
        simp

theorem zipWith_flatten_sublist (gaps frames : List (List Byte))
    (h : gaps.length = frames.length) :
    frames.flatten.Sublist (List.zipWith (· ++ ·) gaps frames).flatten := by
  induction gaps generalizing frames with
  | nil =>
    cases frames with
    | nil => simp
    | cons f fs => simp at h
  | cons g gs ih =>
    cases frames with
    | nil => simp
    | cons f fs =>
      simp only [List.zipWith_cons_cons, List.flatten_cons]
      have h2 : gs.length = fs.length := by simpa using h
      exact ((List.sublist_append_right g f).append (ih fs h2))

theorem zipWith_flatten_contiguous (gaps frames : List (List Byte))
    (h : gaps.length = frames.length) (f : List Byte) (hf : f ∈ frames) :
    f <:+: (List.zipWith (· ++ ·) gaps frames).flatten := by
  induction gaps generalizing frames with
  | nil =>
    cases frames with
    | nil => simp at hf
    | cons f fs => simp at h
  | cons g gs ih =>
    cases frames with
    | nil => simp at hf
    | cons f0 fs =>
      simp only [List.zipWith_cons_cons, List.flatten_cons]
      have h2 : gs.length = fs.length := by simpa using h
      rcases List.mem_cons.1 hf with rfl | hf
      · exact ⟨g, (List.zipWith (· ++ ·) gs fs).flatten, by simp⟩
      · obtain ⟨a, b, hab⟩ := ih fs h2 hf
        exact ⟨g ++ f0 ++ a, b, by simp [← hab]⟩

/-- C1: for every byte stream `S` (ended by any error `atEnd`), repeated calls of
`readMJPEGFrame` return, before the first failing call, a list of frames such that every
frame begins `FF D8`, ends `FF D9` and is a contiguous run of `S`; the stream is
`gap₁ ++ frame₁ ++ gap₂ ++ frame₂ ++ … ++ tail`, so the frames lie at disjoint,
increasing positions; and the concatenation of the frames is a subsequence of `S`.
The calls come to an end: `S.length + 1` calls suffice. -/
theorem readMJPEGFrame_frames_wellformed (atEnd : GoError) (S : List Byte) :
    ∃ frames, readFrames atEnd (S.length + 1) S = some frames ∧
      (∀ f ∈ frames, [0xFF, 0xD8] <+: f ∧ [0xFF, 0xD9] <:+ f ∧ f <:+: S) ∧
      (∃ gaps tail, gaps.length = frames.length ∧
        S = (List.zipWith (· ++ ·) gaps frames).flatten ++ tail) ∧
      frames.flatten.Sublist S := by
  obtain ⟨frames, h1, h2, gaps, tail, h3, h4⟩ :=
    readFrames_spec atEnd (S.length + 1) S (Nat.lt_succ_self _)
  refine ⟨frames, h1, ?_, ⟨gaps, tail, h3, h4⟩, ?_⟩
  · intro f hf
    refine ⟨(h2 f hf).1, (h2 f hf).2, ?_⟩
    obtain ⟨a, b, hab⟩ := zipWith_flatten_contiguous gaps frames h3 f hf
    exact ⟨a, b ++ tail, by rw [h4, ← hab]; simp⟩
  · have := zipWith_flatten_sublist gaps frames h3
    rw [h4]
    exact this.trans (List.sublist_append_left _ _)

theorem no_early_EOI (F : List Byte) (h : firstEOIAtEnd F) (p s : List Byte)
    (hF : F = p ++ s) (hs : s ≠ []) : endsWithEOI p = false := by
  by_contra hc
  have hc2 : endsWithEOI p = true := by simpa using hc
  obtain ⟨t, ht⟩ := (endsWithEOI_iff p).1 hc2
  have e : F = t ++ (0xFF :: 0xD9 :: s) := by rw [hF, ← ht]; simp
  have h1 : F[t.length]? = some 0xFF := by
    rw [e, List.getElem?_append_right (le_refl _)]; simp
  have h2 : F[t.length + 1]? = some 0xD9 := by
    rw [e, List.getElem?_append_right (by omega)]; simp
  have := h t.length (by rw [e]; simp) h1 h2
  rw [e] at this
  simp at this
  exact hs this

theorem loop_acc_roundtrip (atEnd : GoError) (F T : List Byte) (hF : firstEOIAtEnd F)
    (hend : endsWithEOI F = true) :
    ∀ (body acc : List Byte), acc ≠ [] → body ≠ [] → acc ++ body = F →
      readMJPEGFrameLoop atEnd acc (body ++ T) = .ok (F, T) := by
  intro body
  induction body with
  | nil => intro acc _ h; exact absurd rfl h
  | cons b body ih =>
    intro acc hacc _ hsplit
    rw [List.cons_append, loop_acc_cons atEnd acc hacc]
    cases body with
    | nil =>
      have : acc ++ [b] = F := hsplit
      rw [this, hend]; simp
    | cons c body =>
      have hno : endsWithEOI (acc ++ [b]) = false :=
        no_early_EOI F hF (acc ++ [b]) (c :: body) (by rw [← hsplit]; simp) (by simp)
      rw [hno]
      simp only [Bool.false_eq_true, if_false]
      exact ih (acc ++ [b]) (by simp) (by simp) (by rw [← hsplit]; simp)

theorem roundtrip_single (atEnd : GoError) (F T : List Byte)
    (hs : [0xFF, 0xD8] <+: F) (he : [0xFF, 0xD9] <:+ F) (hF : firstEOIAtEnd F) :
    readMJPEGFrame atEnd (F ++ T) = .ok (F, T) := by
  obtain ⟨body, hb⟩ := hs
  have hend := (endsWithEOI_iff F).2 he
  have hbody : body ≠ [] := by
    rintro rfl
    rw [← hb] at hend
    simp [endsWithEOI] at hend
  have key := loop_acc_roundtrip atEnd F T hF hend body [0xFF, 0xD8] (by simp) hbody hb
  unfold readMJPEGFrame
  rw [← key, ← hb]
  simp only [List.cons_append, List.nil_append, loop_search_cons, if_true]

theorem readFrames_concat (atEnd : GoError) (Fs : List (List Byte))
    (h : ∀ G ∈ Fs, validFrame G) :
    ∀ fuel, Fs.length < fuel → readFrames atEnd fuel Fs.flatten = some Fs := by
  induction Fs with
  | nil =>
    intro fuel hf
    obtain ⟨k, rfl⟩ : ∃ k, fuel = k + 1 := ⟨fuel - 1, by omega⟩
    simp [readFrames, readMJPEGFrame, loop_nil]
  | cons F Fs ih =>
    intro fuel hf
    obtain ⟨k, rfl⟩ : ∃ k, fuel = k + 1 := ⟨fuel - 1, by omega⟩
    have hv := h F (by simp)
    have h1 := roundtrip_single atEnd F Fs.flatten hv.1 hv.2.1 hv.2.2
    have h2 := ih (fun G hG => h G (by simp [hG])) k (by simpa using hf)
    simp [readFrames, h1, h2]

theorem flatten_length_ge (Fs : List (List Byte)) (h : ∀ G ∈ Fs, validFrame G) :
    Fs.length ≤ Fs.flatten.length := by
  induction Fs with
  | nil => simp
  | cons F Fs ih =>
    have := frame_length_ge F (h F (by simp)).1
    have := ih (fun G hG => h G (by simp [hG]))
    simp only [List.flatten_cons, List.length_append, List.length_cons]
    omega

/-- C2: round trip of the framer. For every frame `F` that begins `FF D8`, ends `FF D9`
and has its first `FF D9` as its last two bytes, and every trailing byte sequence `T`,
`readMJPEGFrame` on `F ++ T` returns exactly `F` and leaves the reader at `T`; and
framing the concatenation of a list `Fs` of such frames yields `Fs`, in order. -/
theorem readMJPEGFrame_roundtrip (atEnd : GoError) (F T : List Byte) (Fs : List (List Byte))
    (hF : validFrame F) (hFs : ∀ G ∈ Fs, validFrame G) :
    readMJPEGFrame atEnd (F ++ T) = .ok (F, T) ∧
      readFrames atEnd (Fs.flatten.length + 1) Fs.flatten = some Fs :=
  ⟨roundtrip_single atEnd F T hF.1 hF.2.1 hF.2.2,
    readFrames_concat atEnd Fs hFs _ (Nat.lt_succ_of_le (flatten_length_ge Fs hFs))⟩

theorem readMJPEGFrame_roundtrip_witness :
    validFrame [0xFF, 0xD8, 0x01, 0xFF, 0xD9] ∧
    (∀ G ∈ [[0xFF, 0xD8, 0x01, 0xFF, 0xD9], [0xFF, 0xD8, 0xFF, 0xD9]], validFrame G) ∧
    readMJPEGFrame .EOF ([0xFF, 0xD8, 0x01, 0xFF, 0xD9] ++ [0x07, 0xFF]) =
      .ok ([0xFF, 0xD8, 0x01, 0xFF, 0xD9], [0x07, 0xFF]) ∧
    readFrames .EOF 10 [0xFF, 0xD8, 0x01, 0xFF, 0xD9, 0xFF, 0xD8, 0xFF, 0xD9] =
      some [[0xFF, 0xD8, 0x01, 0xFF, 0xD9], [0xFF, 0xD8, 0xFF, 0xD9]] :=
  ⟨by decide, by decide,
    readMJPEGFrame_roundtrip .EOF [0xFF, 0xD8, 0x01, 0xFF, 0xD9] [0x07, 0xFF]
      [[0xFF, 0xD8, 0x01, 0xFF, 0xD9], [0xFF, 0xD8, 0xFF, 0xD9]] (by decide) (by decide)⟩

/-- C3: on the stream `FF FF D8 FF D9` the framer returns no frame. After the first `FF`
it reads the second `FF` as the byte that should be `D8`, drops both, and so never sees
the marker `FF D8` that starts at the second byte; the rest is scanned as preamble and
the call ends with the reader's end-of-input error. -/
theorem readMJPEGFrame_drops_byte_after_FF :
    readMJPEGFrame .EOF [0xFF, 0xFF, 0xD8, 0xFF, 0xD9] = .error .EOF := by decide

theorem loop_acc_error (atEnd : GoError) (reader : List Byte) :
    ∀ (frame : List Byte) (e : GoError), frame ≠ [] →
      readMJPEGFrameLoop atEnd frame reader = .error e → e = atEnd := by
  induction reader with
  | nil => intro frame e _ h; simp [loop_nil] at h; exact h.symm
  | cons b r ih =>
    intro frame e hne h
    rw [loop_acc_cons atEnd frame hne] at h
    by_cases he : endsWithEOI (frame ++ [b]) = true
    · simp [he] at h
    · simp only [he] at h
      exact ih (frame ++ [b]) e (by simp) h

theorem loop_search_error (atEnd : GoError) (n : Nat) :
    ∀ (reader : List Byte) (e : GoError), reader.length ≤ n →
      readMJPEGFrameLoop atEnd [] reader = .error e → e = atEnd := by
  induction n with
  | zero =>
    intro reader e hl h
    have : reader = [] := List.length_eq_zero.1 (Nat.le_zero.1 hl)
    subst this
    simp [loop_nil] at h; exact h.symm
  | succ n ih =>
    intro reader e hl h
    cases reader with
    | nil => simp [loop_nil] at h; exact h.symm
    | cons b r =>
      rw [loop_search_cons] at h
      by_cases hb : b = 0xFF
      · simp only [hb, if_true] at h
        cases r with
        | nil => simp at h; exact h.symm
        | cons nx r2 =>
          simp only at h
          by_cases hn : nx = 0xD8
          · simp only [hn, if_true] at h
            exact loop_acc_error atEnd r2 _ e (by simp) h
          · simp only [hn, if_false] at h
            exact ih r2 e (by simp at hl; omega) h
      · simp only [hb, if_false] at h
        exact ih r e (by simp at hl; omega) h

theorem readMJPEGFrame_error (atEnd : GoError) (reader : List Byte) (e : GoError)
    (h : readMJPEGFrame atEnd reader = .error e) : e = atEnd :=
  loop_search_error atEnd reader.length reader e (le_refl _) h

theorem loop_acc_extend (atEnd : GoError) (s : List Byte) (reader : List Byte) :
    ∀ (frame f rest : List Byte), frame ≠ [] →
      readMJPEGFrameLoop atEnd frame reader = .ok (f, rest) →
      readMJPEGFrameLoop atEnd frame (reader ++ s) = .ok (f, rest ++ s) := by
  induction reader with
  | nil => intro frame f rest _ h; simp [loop_nil] at h
  | cons b r ih =>
    intro frame f rest hne h
    rw [loop_acc_cons atEnd frame hne] at h
    rw [List.cons_append, loop_acc_cons atEnd frame hne]
    by_cases he : endsWithEOI (frame ++ [b]) = true
    · simp only [he, if_true, Except.ok.injEq, Prod.mk.injEq] at h ⊢
      exact ⟨h.1, by rw [h.2]⟩
    · simp only [he] at h ⊢
      exact ih (frame ++ [b]) f rest (by simp) h

theorem loop_search_extend (atEnd : GoError) (s : List Byte) (n : Nat) :
    ∀ (reader f rest : List Byte), reader.length ≤ n →
      readMJPEGFrameLoop atEnd [] reader = .ok (f, rest) →
      readMJPEGFrameLoop atEnd [] (reader ++ s) = .ok (f, rest ++ s) := by
  induction n with
  | zero =>
    intro reader f rest hl h
    have : reader = [] := List.length_eq_zero.1 (Nat.le_zero.1 hl)
    subst this
    simp [loop_nil] at h
  | succ n ih =>
    intro reader f rest hl h
    cases reader with
    | nil => simp [loop_nil] at h
    | cons b r =>
      rw [loop_search_cons] at h
      rw [List.cons_append, loop_search_cons]
      by_cases hb : b = 0xFF
      · simp only [hb, if_true] at h ⊢
        cases r with
        | nil => simp at h
        | cons nx r2 =>
          simp only [List.cons_append] at h ⊢
          by_cases hn : nx = 0xD8
          · simp only [hn, if_true] at h ⊢
            exact loop_acc_extend atEnd s r2 _ f rest (by simp) h
          · simp only [hn, if_false] at h ⊢
            exact ih r2 f rest (by simp at hl; omega) h
      · simp only [hb, if_false] at h ⊢
        exact ih r f rest (by simp at hl; omega) h

theorem readMJPEGFrame_truncated (atEnd : GoError) (F P s : List Byte)
    (hF : validFrame F) (hP : F = P ++ s) (hs : s ≠ []) :
    readMJPEGFrame atEnd P = .error atEnd := by
  cases hr : readMJPEGFrame atEnd P with
  | error e => rw [readMJPEGFrame_error atEnd P e hr]
  | ok p =>
    obtain ⟨f, rest⟩ := p
    have h1 := loop_search_extend atEnd s P.length P f rest (le_refl _) hr
    have h2 := roundtrip_single atEnd F [] hF.1 hF.2.1 hF.2.2
    rw [List.append_nil, hP] at h2
    unfold readMJPEGFrame at h2
    rw [h2] at h1
    simp only [Except.ok.injEq, Prod.mk.injEq] at h1
    have : s = [] := (List.append_eq_nil.1 h1.2.symm).2
    exact absurd this hs

/-- C4 (as amended): the framer does not classify the end of input by position. Every
call of `readMJPEGFrame` that fails, on any stream `S` and wherever the end of the stream
interrupts the framer (while `FF D8` is still searched for, after skipped bytes or a
lone `FF`, or after `FF D8` was accepted), fails with the error of the failed `ReadByte`,
unchanged; no other error value is produced. The pass of `readLoop` that meets this error
stops the loop, closes both channels, and sends the error on the error channel only when
it is not `io.EOF`: for a stream that ends with `io.EOF` the error channel is left as it
was. And the call does fail whenever the stream ends before a frame is complete: on every
stream that contains no byte sequence from `FF D8` to `FF D9`, and on every proper
initial part of a frame. On any stream the call either returns a frame or fails with the
error of `ReadByte`. -/
theorem readMJPEGFrame_end_of_input (atEnd : GoError) (S : List Byte) (e : GoError)
    (src : FFmpegFrameSource) (doneAtSend preferDone : Bool)
    (hfail : readMJPEGFrame atEnd S = .error e)
    (hsrc : src.reader = S) (hEnd : src.atEnd = atEnd) :
    e = atEnd ∧
      (src.readLoopIter false doneAtSend preferDone).2 = false ∧
      (src.readLoopIter false doneAtSend preferDone).1.framesClosed = true ∧
      (src.readLoopIter false doneAtSend preferDone).1.errClosed = true ∧
      (src.readLoopIter false doneAtSend preferDone).1.errCh =
        (if atEnd.Is .EOF then src.errCh else trySend src.errCh atEnd) ∧
      (∀ S2 : List Byte,
        (¬ ∃ pre f rest, S2 = pre ++ f ++ rest ∧ [0xFF, 0xD8] <+: f ∧ [0xFF, 0xD9] <:+ f) →
        readMJPEGFrame atEnd S2 = .error atEnd) ∧
      (∀ F P s : List Byte, validFrame F → F = P ++ s → s ≠ [] →
        readMJPEGFrame atEnd P = .error atEnd) ∧
      (∀ S2 : List Byte, (∃ f rest, readMJPEGFrame atEnd S2 = .ok (f, rest)) ∨
        readMJPEGFrame atEnd S2 = .error atEnd) := by
  have he : e = atEnd := readMJPEGFrame_error atEnd S e hfail
  have h : readMJPEGFrame atEnd S = .error atEnd := by rw [hfail, he]
  refine ⟨he, ?_⟩
  have hloop : (src.readLoopIter false doneAtSend preferDone).2 = false ∧
      (src.readLoopIter false doneAtSend preferDone).1.framesClosed = true ∧
      (src.readLoopIter false doneAtSend preferDone).1.errClosed = true ∧
      (src.readLoopIter false doneAtSend preferDone).1.errCh =
        (if atEnd.Is .EOF then src.errCh else trySend src.errCh atEnd) := by
    subst hsrc; subst hEnd
    by_cases hE : src.atEnd.Is .EOF = true <;>
      simp [FFmpegFrameSource.readLoopIter, h, hE, FFmpegFrameSource.closeChannels]
  refine ⟨hloop.1, hloop.2.1, hloop.2.2.1, hloop.2.2.2, ?_, ?_, ?_⟩
  · intro S2 hnone
    cases hr : readMJPEGFrame atEnd S2 with
    | error e2 => rw [readMJPEGFrame_error atEnd S2 e2 hr]
    | ok p =>
      obtain ⟨f, rest⟩ := p
      obtain ⟨pre, h1, h2, h3⟩ := readMJPEGFrame_ok atEnd S2 f rest hr
      exact absurd ⟨pre, f, rest, h1, h2, h3⟩ hnone
  · intro F P s hF hP hs
    exact readMJPEGFrame_truncated atEnd F P s hF hP hs
  · intro S2
    cases hr : readMJPEGFrame atEnd S2 with
    | error e2 => right; rw [readMJPEGFrame_error atEnd S2 e2 hr]
    | ok p => left; exact ⟨p.1, p.2, rfl⟩

theorem readMJPEGFrame_end_of_input_witness :
    readMJPEGFrame .EOF [0x00, 0xFF, 0xD8, 0x01] = .error .EOF ∧
      ((FFmpegFrameSource.mk [0x00, 0xFF, 0xD8, 0x01] .EOF [] false [] false).readLoopIter
        false false false).1.errCh = [] ∧
      readMJPEGFrame .EOF [0xFF, 0xD8, 0x00] = .error .EOF :=
  have h := readMJPEGFrame_end_of_input .EOF [0x00, 0xFF, 0xD8, 0x01] .EOF
    (FFmpegFrameSource.mk [0x00, 0xFF, 0xD8, 0x01] .EOF [] false [] false) false false
    (by decide) rfl rfl
  ⟨by decide, h.2.2.2.2.1,
    h.2.2.2.2.2.2.1 [0xFF, 0xD8, 0x00, 0xFF, 0xD9] [0xFF, 0xD8, 0x00] [0xFF, 0xD9]
      (by decide) (by decide) (by decide)⟩

/-- C4 (counterexample to the specification as written): a stream that ends mid-frame, after
`FF D8` and before any `FF D9`, makes `readMJPEGFrame` return the same value, `io.EOF`,
as a stream that ends while the marker is still searched for; and the pass of `readLoop`
that meets it leaves the error channel empty. -/
theorem readMJPEGFrame_midframe_eof_not_distinguished :
    readMJPEGFrame .EOF [0xFF, 0xD8, 0x00] = readMJPEGFrame .EOF [0x00] ∧
      readMJPEGFrame .EOF [0xFF, 0xD8, 0x00] = .error .EOF ∧
      ((FFmpegFrameSource.mk [0xFF, 0xD8, 0x00] .EOF [] false [] false).readLoopIter
        false false false) =
        (FFmpegFrameSource.mk [] .EOF [] true [] true, false) := by decide
/-! ### Backoff -/

theorem shiftUp_spec : ∀ (fuel p q : Nat), p < q * 2 ^ (53 + fuel) →
    p < q * 2 ^ (53 + shiftUp fuel p q) ∧
      (0 < shiftUp fuel p q → q * 2 ^ (52 + shiftUp fuel p q) ≤ p) := by
  intro fuel
  induction fuel with
  | zero => intro p q h; simpa [shiftUp] using h
  | succ n ih =>
    intro p q h
    unfold shiftUp
    by_cases hc : p < q * 2 ^ 53
    · rw [if_pos hc]
      exact ⟨by simpa using hc, fun h0 => absurd h0 (by decide)⟩
    · rw [if_neg hc]
      have h2 : p < 2 * q * 2 ^ (53 + n) := by
        have : q * 2 ^ (53 + (n + 1)) = 2 * q * 2 ^ (53 + n) := by ring
        omega
      obtain ⟨i1, i2⟩ := ih p (2 * q) h2
      refine ⟨?_, fun _ => ?_⟩
      · have : q * 2 ^ (53 + (shiftUp n p (2 * q) + 1)) = 2 * q * 2 ^ (53 + shiftUp n p (2 * q)) := by
          ring
        omega
      · have e : q * 2 ^ (52 + (shiftUp n p (2 * q) + 1)) = 2 * q * 2 ^ (52 + shiftUp n p (2 * q)) := by
          ring
        rw [e]
        by_cases hk : 0 < shiftUp n p (2 * q)
        · exact i2 hk
        · have hk0 : shiftUp n p (2 * q) = 0 := by omega
          rw [hk0]
          have : 2 * q * 2 ^ (52 + 0) = q * 2 ^ 53 := by ring
          omega

theorem shiftDown_spec : ∀ (fuel p q : Nat), q * 2 ^ 52 ≤ p * 2 ^ fuel →
    q * 2 ^ 52 ≤ p * 2 ^ shiftDown fuel p q ∧
      (0 < shiftDown fuel p q → p * 2 ^ shiftDown fuel p q < q * 2 ^ 53) := by
  intro fuel
  induction fuel with
  | zero => intro p q h; simpa [shiftDown] using h
  | succ n ih =>
    intro p q h
    unfold shiftDown
    by_cases hc : q * 2 ^ 52 ≤ p
    · rw [if_pos hc]
      exact ⟨by simpa using hc, fun h0 => absurd h0 (by decide)⟩
    · rw [if_neg hc]
      have h2 : q * 2 ^ 52 ≤ 2 * p * 2 ^ n := by
        have : p * 2 ^ (n + 1) = 2 * p * 2 ^ n := by ring
        omega
      obtain ⟨i1, i2⟩ := ih (2 * p) q h2
      have e : p * 2 ^ (shiftDown n (2 * p) q + 1) = 2 * p * 2 ^ shiftDown n (2 * p) q := by ring
      rw [e]
      refine ⟨i1, fun _ => ?_⟩
      by_cases hk : 0 < shiftDown n (2 * p) q
      · exact i2 hk
      · have hk0 : shiftDown n (2 * p) q = 0 := by omega
        rw [hk0]
        have : q * 2 ^ 53 = 2 * (q * 2 ^ 52) := by ring
        omega

theorem float64Round_den_pos (p q : Nat) : 0 < (float64Round p q).2 := by
  unfold float64Round
  by_cases h1 : p = 0 ∨ q = 0
  · rw [if_pos h1]; decide
  · rw [if_neg h1]
    by_cases h2 : 0 < shiftUp p p q
    · simp only [h2, if_true]; decide
    · simp only [h2, if_false]; positivity

theorem ratOf_nonneg (x : Nat × Nat) : 0 ≤ ratOf x := by
  unfold ratOf
  positivity

/-- Scaled form of a rounding: the input over `2^e` is a fraction `P / Q` in
`[2^52, 2^53)`, and the result is the rounded fraction times `2^e`. -/
theorem float64Round_scaled (p q : Nat) (hp : 0 < p) (hq : 0 < q) :
    ∃ (P Q : Nat) (e : ℤ), 0 < Q ∧ Q * 2 ^ 52 ≤ P ∧ P < Q * 2 ^ 53 ∧
      (P : ℚ) / Q = (p : ℚ) / q / 2 ^ e ∧
      ratOf (float64Round p q) = (roundHalfEven P Q : ℚ) * 2 ^ e := by
  have hfu : p < q * 2 ^ (53 + p) := by
    have h1 : p < 2 ^ p := Nat.lt_two_pow p
    have h2 : 2 ^ p ≤ q * 2 ^ (53 + p) := by
      rw [pow_add]
      calc 2 ^ p = 1 * (1 * 2 ^ p) := by ring
        _ ≤ q * (2 ^ 53 * 2 ^ p) := by
          apply Nat.mul_le_mul hq
          apply Nat.mul_le_mul (Nat.one_le_two_pow) le_rfl
    omega
  obtain ⟨u1, u2⟩ := shiftUp_spec p p q hfu
  have hpq : ¬ (p = 0 ∨ q = 0) := by omega
  by_cases hup : 0 < shiftUp p p q
  · refine ⟨p, q * 2 ^ shiftUp p p q, (shiftUp p p q : ℤ), by positivity, ?_, ?_, ?_, ?_⟩
    · have := u2 hup
      calc q * 2 ^ shiftUp p p q * 2 ^ 52 = q * 2 ^ (52 + shiftUp p p q) := by ring
        _ ≤ p := this
    · calc p < q * 2 ^ (53 + shiftUp p p q) := u1
        _ = q * 2 ^ shiftUp p p q * 2 ^ 53 := by ring
    · push_cast
      rw [zpow_natCast]
      field_simp
    · unfold float64Round ratOf
      rw [if_neg hpq]
      simp only [hup, if_true]
      push_cast
      rw [zpow_natCast]
      simp
  · have hup0 : shiftUp p p q = 0 := by omega
    rw [hup0] at u1
    have hfd : q * 2 ^ 52 ≤ p * 2 ^ (q + 52) := by
      have h1 : q < 2 ^ q := Nat.lt_two_pow q
      calc q * 2 ^ 52 ≤ 2 ^ q * 2 ^ 52 := Nat.mul_le_mul (le_of_lt h1) le_rfl
        _ = 1 * 2 ^ (q + 52) := by ring
        _ ≤ p * 2 ^ (q + 52) := Nat.mul_le_mul hp le_rfl
    obtain ⟨d1, d2⟩ := shiftDown_spec (q + 52) p q hfd
    refine ⟨p * 2 ^ shiftDown (q + 52) p q, q, -(shiftDown (q + 52) p q : ℤ), hq, d1, ?_, ?_, ?_⟩
    · by_cases hd : 0 < shiftDown (q + 52) p q
      · exact d2 hd
      · have hd0 : shiftDown (q + 52) p q = 0 := by omega
        rw [hd0]
        simpa using u1
    · push_cast
      rw [zpow_neg, zpow_natCast]
      field_simp
    · unfold float64Round ratOf
      rw [if_neg hpq]
      simp only [hup, if_false]
      push_cast
      rw [zpow_neg, zpow_natCast]
      field_simp

theorem roundHalfEven_eq_rneQ (P Q : Nat) (hQ : 0 < Q) :
    ((roundHalfEven P Q : Nat) : ℤ) = rneQ ((P : ℚ) / Q) := by
  have hfl : ⌊(P : ℚ) / Q⌋ = ((P / Q : Nat) : ℤ) := by
    have := Rat.floor_intCast_div_natCast (P : ℤ) Q
    simpa using this
  have hQq : (0 : ℚ) < Q := by exact_mod_cast hQ
  have hfr : (P : ℚ) / Q - ((P / Q : Nat) : ℤ) = ((P % Q : Nat) : ℚ) / Q := by
    have h := Nat.div_add_mod P Q
    have h2 : (P : ℚ) = Q * ((P / Q : Nat) : ℚ) + ((P % Q : Nat) : ℚ) := by exact_mod_cast h.symm
    rw [Int.cast_natCast, h2]
    field_simp
  have c1 : (2 * (((P % Q : Nat) : ℚ) / Q) < 1) ↔ 2 * (P % Q) < Q := by
    rw [← mul_div_assoc, div_lt_one hQq]
    exact_mod_cast Iff.rfl
  have c2 : (1 < 2 * (((P % Q : Nat) : ℚ) / Q)) ↔ Q < 2 * (P % Q) := by
    rw [← mul_div_assoc, one_lt_div hQq]
    exact_mod_cast Iff.rfl
  have c3 : (((P / Q : Nat) : ℤ) % 2 = 0) ↔ (P / Q) % 2 = 0 := by omega
  unfold rneQ roundHalfEven
  rw [hfl, hfr]
  simp only [c1, c2, c3]
  split_ifs <;> simp

theorem rneQ_bounds (t : ℚ) : ⌊t⌋ ≤ rneQ t ∧ rneQ t ≤ ⌊t⌋ + 1 := by
  unfold rneQ
  split_ifs <;> constructor <;> omega

theorem rneQ_intCast (n : ℤ) : rneQ (n : ℚ) = n := by
  unfold rneQ
  simp

theorem rneQ_mono (s t : ℚ) (h : s ≤ t) : rneQ s ≤ rneQ t := by
  have hf : ⌊s⌋ ≤ ⌊t⌋ := Int.floor_mono h
  rcases lt_or_eq_of_le hf with hlt | heq
  · have := (rneQ_bounds s).2
    have := (rneQ_bounds t).1
    omega
  · unfold rneQ
    rw [heq]
    have hd : 2 * (s - ⌊t⌋) ≤ 2 * (t - ⌊t⌋) := by linarith
    split_ifs <;> first | omega | (exfalso; linarith)

theorem float64Round_zero (q : Nat) : float64Round 0 q = (0, 1) := by
  unfold float64Round
  simp

/-- Characterisation of the rounding of `x = p / q > 0`: for the exponent `e` with
`2^52 ≤ x / 2^e < 2^53`, the result is the integer nearest to `x / 2^e` (ties to even)
times `2^e`. -/
theorem float64Round_char (p q : Nat) (hp : 0 < p) (hq : 0 < q) :
    ∃ e : ℤ, (2 : ℚ) ^ 52 ≤ (p : ℚ) / q / 2 ^ e ∧ (p : ℚ) / q / 2 ^ e < 2 ^ 53 ∧
      ratOf (float64Round p q) = (rneQ ((p : ℚ) / q / 2 ^ e) : ℚ) * 2 ^ e := by
  obtain ⟨P, Q, e, hQ, h1, h2, h3, h4⟩ := float64Round_scaled p q hp hq
  have hQq : (0 : ℚ) < Q := by exact_mod_cast hQ
  refine ⟨e, ?_, ?_, ?_⟩
  · rw [← h3, le_div_iff₀ hQq]
    have : ((Q * 2 ^ 52 : Nat) : ℚ) ≤ (P : ℚ) := by exact_mod_cast h1
    push_cast at this
    linarith
  · rw [← h3, div_lt_iff₀ hQq]
    have : (P : ℚ) < ((Q * 2 ^ 53 : Nat) : ℚ) := by exact_mod_cast h2
    push_cast at this
    linarith
  · rw [h4, ← h3, ← roundHalfEven_eq_rneQ P Q hQ]
    simp

theorem float64Round_mono (p q p1 q1 : Nat) (hq : 0 < q) (hq1 : 0 < q1)
    (h : (p : ℚ) / q ≤ (p1 : ℚ) / q1) :
    ratOf (float64Round p q) ≤ ratOf (float64Round p1 q1) := by
  rcases Nat.eq_zero_or_pos p with hp0 | hp
  · rw [hp0, float64Round_zero]
    simpa [ratOf] using ratOf_nonneg (float64Round p1 q1)
  have hqq : (0 : ℚ) < q := by exact_mod_cast hq
  have hqq1 : (0 : ℚ) < q1 := by exact_mod_cast hq1
  have hx : (0 : ℚ) < (p : ℚ) / q := div_pos (by exact_mod_cast hp) hqq
  have hp1 : 0 < p1 := by
    rcases Nat.eq_zero_or_pos p1 with h0 | h0
    · rw [h0] at h
      simp at h
      linarith
    · exact h0
  obtain ⟨e, a1, a2, a3⟩ := float64Round_char p q hp hq
  obtain ⟨f, b1, b2, b3⟩ := float64Round_char p1 q1 hp1 hq1
  rw [a3, b3]
  generalize (p : ℚ) / q = x at *
  generalize (p1 : ℚ) / q1 = y at *
  have he : (0 : ℚ) < 2 ^ e := zpow_pos (by norm_num) e
  have hf : (0 : ℚ) < 2 ^ f := zpow_pos (by norm_num) f
  have hmx1 : ((2 : ℤ) ^ 52 : ℤ) ≤ rneQ (x / 2 ^ e) := by
    have := rneQ_mono ((2 ^ 52 : ℤ) : ℚ) (x / 2 ^ e) (by push_cast; exact a1)
    rwa [rneQ_intCast] at this
  have hmx2 : rneQ (x / 2 ^ e) ≤ ((2 : ℤ) ^ 53 : ℤ) := by
    have := rneQ_mono (x / 2 ^ e) ((2 ^ 53 : ℤ) : ℚ) (by push_cast; exact le_of_lt a2)
    rwa [rneQ_intCast] at this
  have hmy1 : ((2 : ℤ) ^ 52 : ℤ) ≤ rneQ (y / 2 ^ f) := by
    have := rneQ_mono ((2 ^ 52 : ℤ) : ℚ) (y / 2 ^ f) (by push_cast; exact b1)
    rwa [rneQ_intCast] at this
  have hef : e ≤ f := by
    by_contra hcon
    have hfe : f + 1 ≤ e := by omega
    have h1 : (2 : ℚ) ^ (f + 1) ≤ 2 ^ e := zpow_le_zpow_right₀ (by norm_num) hfe
    rw [zpow_add_one₀ (by norm_num : (2 : ℚ) ≠ 0)] at h1
    rw [le_div_iff₀ he] at a1
    rw [div_lt_iff₀ hf] at b2
    nlinarith
  rcases lt_or_eq_of_le hef with hlt | heq
  · have h1 : (2 : ℚ) ^ (e + 1) ≤ 2 ^ f := zpow_le_zpow_right₀ (by norm_num) (by omega)
    rw [zpow_add_one₀ (by norm_num : (2 : ℚ) ≠ 0)] at h1
    have h2 : (rneQ (x / 2 ^ e) : ℚ) ≤ 2 ^ 53 := by exact_mod_cast hmx2
    have h3 : (2 : ℚ) ^ 52 ≤ (rneQ (y / 2 ^ f) : ℚ) := by exact_mod_cast hmy1
    calc (rneQ (x / 2 ^ e) : ℚ) * 2 ^ e ≤ 2 ^ 53 * 2 ^ e :=
          mul_le_mul_of_nonneg_right h2 (le_of_lt he)
      _ = 2 ^ 52 * (2 ^ e * 2) := by ring
      _ ≤ 2 ^ 52 * 2 ^ f := by
          apply mul_le_mul_of_nonneg_left h1 (by norm_num)
      _ ≤ (rneQ (y / 2 ^ f) : ℚ) * 2 ^ f := mul_le_mul_of_nonneg_right h3 (le_of_lt hf)
  · subst heq
    have hxy : x / 2 ^ e ≤ y / 2 ^ e := div_le_div_of_nonneg_right h (le_of_lt he)
    have := rneQ_mono _ _ hxy
    have h2 : (rneQ (x / 2 ^ e) : ℚ) ≤ (rneQ (y / 2 ^ e) : ℚ) := by exact_mod_cast this
    exact mul_le_mul_of_nonneg_right h2 (le_of_lt he)

theorem float64OfInt64_exact (z : Int) (h : |z| < 2 ^ 53) : float64OfInt64 z = z := by
  have ha : z.natAbs < 2 ^ 53 := by
    have : (z.natAbs : Int) < 2 ^ 53 := by rw [Int.natCast_natAbs]; exact h
    exact_mod_cast this
  have he : excessBits 11 z.natAbs = 0 := by
    unfold excessBits
    rw [if_pos ha]
  simp only [float64OfInt64, he, pow_zero, Nat.div_one, Nat.mod_one, Nat.mul_one]
  simp only [Nat.mul_zero, Nat.lt_one_iff, if_true]
  exact Int.sign_mul_natAbs z

theorem ratOf_float64Mul_arg (x y : Nat × Nat) :
    ((x.1 * y.1 : Nat) : ℚ) / ((x.2 * y.2 : Nat) : ℚ) = ratOf x * ratOf y := by
  unfold ratOf
  push_cast
  rw [mul_div_mul_comm]

theorem ratOf_float64Add_arg (x y : Nat × Nat) (hx : 0 < x.2) (hy : 0 < y.2) :
    ((x.1 * y.2 + y.1 * x.2 : Nat) : ℚ) / ((x.2 * y.2 : Nat) : ℚ) = ratOf x + ratOf y := by
  unfold ratOf
  have h1 : (x.2 : ℚ) ≠ 0 := by exact_mod_cast (by omega : x.2 ≠ 0)
  have h2 : (y.2 : ℚ) ≠ 0 := by exact_mod_cast (by omega : y.2 ≠ 0)
  push_cast
  field_simp

theorem float64Mul_mono (x y x1 y1 : Nat × Nat) (hx : 0 < x.2) (hy : 0 < y.2)
    (hx1 : 0 < x1.2) (hy1 : 0 < y1.2) (h1 : ratOf x ≤ ratOf x1) (h2 : ratOf y ≤ ratOf y1) :
    ratOf (float64Mul x y) ≤ ratOf (float64Mul x1 y1) := by
  unfold float64Mul
  apply float64Round_mono _ _ _ _ (Nat.mul_pos hx hy) (Nat.mul_pos hx1 hy1)
  rw [ratOf_float64Mul_arg, ratOf_float64Mul_arg]
  exact mul_le_mul h1 h2 (ratOf_nonneg y) (le_trans (ratOf_nonneg x) h1)

theorem float64Add_mono (x y x1 y1 : Nat × Nat) (hx : 0 < x.2) (hy : 0 < y.2)
    (hx1 : 0 < x1.2) (hy1 : 0 < y1.2) (h1 : ratOf x ≤ ratOf x1) (h2 : ratOf y ≤ ratOf y1) :
    ratOf (float64Add x y) ≤ ratOf (float64Add x1 y1) := by
  unfold float64Add
  apply float64Round_mono _ _ _ _ (Nat.mul_pos hx hy) (Nat.mul_pos hx1 hy1)
  rw [ratOf_float64Add_arg x y hx hy, ratOf_float64Add_arg x1 y1 hx1 hy1]
  exact add_le_add h1 h2

theorem float64Mul_den_pos (x y : Nat × Nat) : 0 < (float64Mul x y).2 :=
  float64Round_den_pos _ _

theorem float64Add_den_pos (x y : Nat × Nat) : 0 < (float64Add x y).2 :=
  float64Round_den_pos _ _

/-- The jitter factor lies between the `float64` nearest to `0.8` and the rounded sum of
the two constants, `5404319552844596 / 2^52`, the `float64` next above `1.2`. -/
theorem jitterFactor_bounds (rn rd : Nat) (hr : rn < rd) :
    ratOf (7205759403792794, 2 ^ 53) ≤ ratOf (jitterFactor rn rd) ∧
      ratOf (jitterFactor rn rd) ≤ ratOf (5404319552844596, 2 ^ 52) := by
  have c04 : float64Round 2 5 = (7205759403792794, 2 ^ 54) := by decide
  have c08 : float64Round 4 5 = (7205759403792794, 2 ^ 53) := by decide
  have z0 : float64Mul (0, 1) (7205759403792794, 2 ^ 54) = (0, 1) := by decide
  have z1 : float64Mul (1, 1) (7205759403792794, 2 ^ 54) = (7205759403792794, 2 ^ 54) := by
    decide
  have lo : float64Add (0, 1) (7205759403792794, 2 ^ 53) = (7205759403792794, 2 ^ 53) := by
    decide
  have hi : float64Add (7205759403792794, 2 ^ 54) (7205759403792794, 2 ^ 53) =
      (5404319552844596, 2 ^ 52) := by decide
  have hrd : 0 < rd := by omega
  have hr1 : ratOf (rn, rd) ≤ ratOf (1, 1) := by
    unfold ratOf
    have : (rn : ℚ) ≤ rd := by exact_mod_cast le_of_lt hr
    have hq : (0 : ℚ) < rd := by exact_mod_cast hrd
    simp only [Nat.cast_one, div_one]
    rw [div_le_one hq]
    exact this
  have hr0 : ratOf (0, 1) ≤ ratOf (rn, rd) := by
    have := ratOf_nonneg (rn, rd)
    simpa [ratOf] using this
  unfold jitterFactor
  rw [c04, c08]
  have a1 := float64Mul_mono (rn, rd) (7205759403792794, 2 ^ 54) (1, 1)
    (7205759403792794, 2 ^ 54) hrd (by decide) (by decide) (by decide) hr1 le_rfl
  rw [z1] at a1
  have a0 : ratOf (0, 1) ≤ ratOf (float64Mul (rn, rd) (7205759403792794, 2 ^ 54)) := by
    have := ratOf_nonneg (float64Mul (rn, rd) (7205759403792794, 2 ^ 54))
    simpa [ratOf] using this
  constructor
  · have := float64Add_mono (0, 1) (7205759403792794, 2 ^ 53)
      (float64Mul (rn, rd) (7205759403792794, 2 ^ 54)) (7205759403792794, 2 ^ 53)
      (by decide) (by decide) (float64Mul_den_pos _ _) (by decide) a0 le_rfl
    rwa [lo] at this
  · have := float64Add_mono (float64Mul (rn, rd) (7205759403792794, 2 ^ 54))
      (7205759403792794, 2 ^ 53) (7205759403792794, 2 ^ 54) (7205759403792794, 2 ^ 53)
      (float64Mul_den_pos _ _) (by decide) (by decide) (by decide) a1 le_rfl
    rwa [hi] at this

theorem jitterFactor_den_pos (rn rd : Nat) : 0 < (jitterFactor rn rd).2 :=
  float64Round_den_pos _ _

theorem natDiv_mono_of_ratOf_le (x y : Nat × Nat) (h : ratOf x ≤ ratOf y) : x.1 / x.2 ≤ y.1 / y.2 := by
  have h1 : ⌊ratOf x⌋₊ ≤ ⌊ratOf y⌋₊ := Nat.floor_mono h
  unfold ratOf at h1
  rwa [Nat.floor_div_eq_div, Nat.floor_div_eq_div] at h1

theorem Duration_le_Max (b : ExponentialBackoff) (n : Int) (rn rd : Nat)
    (ovf : OutOfRange → Int) (hMax : 0 < b.Max) : b.Duration n rn rd ovf ≤ b.Max := by
  unfold ExponentialBackoff.Duration
  simp only
  split_ifs <;> omega

theorem Duration_in_range (b : ExponentialBackoff) (n : Int) (rn rd : Nat)
    (ovf : OutOfRange → Int) (hB : |b.Base| < 2 ^ 53) (hn : n < 1024) :
    b.Duration n rn rd ovf =
      (let t := if b.Jitter then
          (b.Base * 2 ^ n.toNat).sign *
            (((float64Mul ((b.Base * 2 ^ n.toNat).natAbs, 1) (jitterFactor rn rd)).1 /
              (float64Mul ((b.Base * 2 ^ n.toNat).natAbs, 1) (jitterFactor rn rd)).2 : Nat) : Int)
        else b.Base * 2 ^ n.toNat
       let dur := int64OfFloat64 ovf t
       if b.Max > 0 ∧ dur > b.Max then b.Max else dur) := by
  unfold ExponentialBackoff.Duration
  rw [float64OfInt64_exact b.Base hB]
  by_cases hneg : n < 0
  · have h0 : n.toNat = 0 := by omega
    simp only [hneg, if_true, h0]
    by_cases hj : b.Jitter = true <;> simp [hj]
  · have h1 : ¬ (1024 ≤ n) := by omega
    simp only [hneg, if_false, h1]
    by_cases hj : b.Jitter = true <;> simp [hj]

theorem Duration_mono_in_range (b : ExponentialBackoff) (n : Int) (rn rd : Nat)
    (ovf : OutOfRange → Int) (hJ : b.Jitter = false) (hB0 : 0 ≤ b.Base)
    (hB : b.Base < 2 ^ 53) (hn0 : 0 ≤ n) (hn : n + 1 < 1024)
    (hfit : b.Base * 2 ^ (n + 1).toNat < 2 ^ 63) :
    b.Duration n rn rd ovf ≤ b.Duration (n + 1) rn rd ovf := by
  have habs : |b.Base| < 2 ^ 53 := by rw [abs_of_nonneg hB0]; exact hB
  rw [Duration_in_range b n rn rd ovf habs (by omega),
    Duration_in_range b (n + 1) rn rd ovf habs hn]
  have e : (n + 1).toNat = n.toNat + 1 := by omega
  rw [e, pow_succ] at hfit ⊢
  have hp : (0 : Int) < 2 ^ n.toNat := by positivity
  have hx : 0 ≤ b.Base * 2 ^ n.toNat := mul_nonneg hB0 (le_of_lt hp)
  have e2 : b.Base * (2 ^ n.toNat * 2) = b.Base * 2 ^ n.toNat * 2 := by ring
  rw [e2] at hfit ⊢
  simp only [hJ, Bool.false_eq_true, if_false, int64OfFloat64]
  generalize b.Base * 2 ^ n.toNat = x at hx hfit ⊢
  split_ifs <;> omega

/-- C6 (the code at the failing input): with `Base = 1s`, `Max = 8s`, no jitter, and the
out-of-range conversion of amd64, `Duration(33)` is the cap `8s`, while `Duration(34)`,
where `1s · 2^34` no longer fits `int64`, is `-2^63` ns: the conversion result is
negative, the cap test `dur > Max` does not fire, and the delay decreases. -/
theorem Duration_decreases_on_overflow :
    (ExponentialBackoff.mk (10 ^ 9) (8 * 10 ^ 9) false).Duration 33 0 1 amd64Overflow
        = 8 * 10 ^ 9 ∧
      (ExponentialBackoff.mk (10 ^ 9) (8 * 10 ^ 9) false).Duration 34 0 1 amd64Overflow
        = -2 ^ 63 ∧
      (ExponentialBackoff.mk (10 ^ 9) (8 * 10 ^ 9) false).Duration (33 + 1) 0 1 amd64Overflow <
        (ExponentialBackoff.mk (10 ^ 9) (8 * 10 ^ 9) false).Duration 33 0 1 amd64Overflow := by
  decide

/-! ### Camera manager -/

theorem NewCameraWorker_Start (cameraID rtspURL outputURL ffmpegBin : String) (fps : Int)
    (pc : Bool) :
    ((NewCameraWorker cameraID rtspURL outputURL ffmpegBin fps).Start pc).2 = none := by
  simp [CameraWorker.Start, NewCameraWorker]

theorem StartCamera_registered (m : CameraManager) (id : String) (w : CameraWorker)
    (h : m.workers.lookup id = some w) :
    m.StartCamera id = (m, some (.msg ("camera " ++ id ++ " already running"))) := by
  simp [CameraManager.StartCamera, h]

theorem StartCamera_unconfigured (m : CameraManager) (id : String)
    (h : m.workers.lookup id = none) (hc : m.cfg.CameraConfigs.lookup id = none) :
    m.StartCamera id = (m, some (.msg ("camera " ++ id ++ " not configured"))) := by
  simp [CameraManager.StartCamera, h, hc]

theorem StartCamera_fresh (m : CameraManager) (id : String) (c : CameraConfig)
    (h : m.workers.lookup id = none) (hc : m.cfg.CameraConfigs.lookup id = some c) :
    m.StartCamera id =
      ({ m with workers := (m.workers.insert id
          ((NewCameraWorker id c.RTSPURL (TrimRight m.cfg.MediaMTXURL "/" ++ "/" ++ id)
              m.ffmpegBin m.fps).Start m.cancelled).1) }, none) := by
  have hs := NewCameraWorker_Start id c.RTSPURL (TrimRight m.cfg.MediaMTXURL "/" ++ "/" ++ id)
    m.ffmpegBin m.fps m.cancelled
  simp only [CameraManager.StartCamera, h, hc]
  generalize (NewCameraWorker id c.RTSPURL (TrimRight m.cfg.MediaMTXURL "/" ++ "/" ++ id)
    m.ffmpegBin m.fps).Start m.cancelled = r at hs ⊢
  obtain ⟨w, e⟩ := r
  simp only at hs
  subst hs
  rfl

/-- C7: `StartCamera(id)` returns an error exactly when `id` has no entry in the camera
configuration or a worker for `id` is registered; a registered `id` gives the
"already running" error and an unregistered, unconfigured one the "not configured"
error. On failure the manager state, the registry included, is unchanged; on success
`id` was not registered before, is registered afterwards, and every other key keeps its
entry. For a configured `id`, a second `StartCamera(id)` returns "already running",
changes nothing, and the registry holds exactly one entry for `id`. -/
theorem StartCamera_spec (m : CameraManager) (id : String) :
    ((m.StartCamera id).2 ≠ none ↔
      (m.cfg.CameraConfigs.lookup id = none ∨ id ∈ m.workers)) ∧
    (id ∈ m.workers →
      (m.StartCamera id).2 = some (.msg ("camera " ++ id ++ " already running"))) ∧
    (id ∉ m.workers → m.cfg.CameraConfigs.lookup id = none →
      (m.StartCamera id).2 = some (.msg ("camera " ++ id ++ " not configured"))) ∧
    ((m.StartCamera id).2 ≠ none → (m.StartCamera id).1 = m) ∧
    ((m.StartCamera id).2 = none →
      id ∉ m.workers ∧ id ∈ (m.StartCamera id).1.workers ∧
      (m.StartCamera id).1.workers.keys = id :: m.workers.keys ∧
      ∀ k, k ≠ id → (m.StartCamera id).1.workers.lookup k = m.workers.lookup k) ∧
    (m.cfg.CameraConfigs.lookup id ≠ none →
      ((m.StartCamera id).1.StartCamera id).2 =
          some (.msg ("camera " ++ id ++ " already running")) ∧
        ((m.StartCamera id).1.StartCamera id).1 = (m.StartCamera id).1 ∧
        ((m.StartCamera id).1.StartCamera id).1.workers.keys.count id = 1) := by
  cases hw : m.workers.lookup id with
  | some w =>
    have hmem : id ∈ m.workers := AList.lookup_isSome.1 (by simp [hw])
    have e := StartCamera_registered m id w hw
    have e2 : (m.StartCamera id).1.StartCamera id =
        (m, some (.msg ("camera " ++ id ++ " already running"))) := by
      rw [e]; exact e
    rw [e2, e]
    refine ⟨by simp [hmem], fun _ => rfl, fun h => absurd hmem h, fun _ => rfl,
      fun h => by simp at h, fun _ => ⟨rfl, rfl, ?_⟩⟩
    exact List.count_eq_one_of_mem m.workers.keys_nodup (AList.mem_keys.1 hmem)
  | none =>
    have hnot : id ∉ m.workers := AList.lookup_eq_none.1 hw
    cases hc : m.cfg.CameraConfigs.lookup id with
    | none =>
      have e := StartCamera_unconfigured m id hw hc
      rw [e]
      exact ⟨by simp, fun h => absurd h hnot, fun _ _ => rfl, fun _ => rfl,
        fun h => by simp at h, fun h => absurd rfl h⟩
    | some c =>
      have e := StartCamera_fresh m id c hw hc
      have hl : (m.StartCamera id).1.workers.lookup id = some
          ((NewCameraWorker id c.RTSPURL (TrimRight m.cfg.MediaMTXURL "/" ++ "/" ++ id)
              m.ffmpegBin m.fps).Start m.cancelled).1 := by
        rw [e]; exact AList.lookup_insert _
      have e2 := StartCamera_registered (m.StartCamera id).1 id _ hl
      rw [e2]
      rw [e]
      refine ⟨by simp [hnot], fun h => absurd h hnot, fun _ h => by simp at h,
        fun h => by simp at h, fun _ => ⟨hnot, ?_, ?_, ?_⟩, fun _ => ⟨rfl, rfl, ?_⟩⟩
      · exact (AList.mem_insert _).2 (Or.inl rfl)
      · simp only [AList.keys_insert]
        rw [List.erase_of_not_mem (fun h => hnot (AList.mem_keys.2 h))]
      · intro k hk
        exact AList.lookup_insert_ne hk
      · refine List.count_eq_one_of_mem (AList.keys_nodup _) ?_
        exact AList.mem_keys.1 ((AList.mem_insert _).2 (Or.inl rfl))

theorem StartCamera_spec_witness :
    (Config.mk "development" "info" "ffmpeg" 15 "http://localhost:8081" "/alerts"
        "rtsp://localhost:8554/" ":8080"
        (AList.insert "cam1" (CameraConfig.mk "cam1" "rtsp://x") ∅)).CameraConfigs.lookup
        "cam1" ≠ none ∧
    ((((NewCameraManager false
        (Config.mk "development" "info" "ffmpeg" 15 "http://localhost:8081" "/alerts"
          "rtsp://localhost:8554/" ":8080"
          (AList.insert "cam1" (CameraConfig.mk "cam1" "rtsp://x") ∅))).StartCamera
        "cam1").1.StartCamera "cam1").2 = some (.msg ("camera " ++ "cam1" ++ " already running"))) :=
  ⟨by decide,
    ((StartCamera_spec (NewCameraManager false
        (Config.mk "development" "info" "ffmpeg" 15 "http://localhost:8081" "/alerts"
          "rtsp://localhost:8554/" ":8080"
          (AList.insert "cam1" (CameraConfig.mk "cam1" "rtsp://x") ∅))) "cam1").2.2.2.2.2
      (by decide)).1⟩

theorem TrimRight_slash (s : List Char) :
    (∃ k, s = s.rdropWhile (fun c => "/".data.contains c) ++ List.replicate k '/') ∧
      (s.rdropWhile (fun c => "/".data.contains c)).getLast? ≠ some '/' := by
  induction s using List.reverseRecOn with
  | nil => simp
  | append_singleton l a ih =>
    by_cases ha : a = '/'
    · subst ha
      have hp : (fun c => "/".data.contains c) '/' = true := by decide
      rw [List.rdropWhile_concat_pos _ _ _ hp]
      obtain ⟨⟨k, hk⟩, h2⟩ := ih
      refine ⟨⟨k + 1, ?_⟩, h2⟩
      conv_lhs => rw [hk]
      rw [List.replicate_succ', List.append_assoc]
    · have hp : ¬ ((fun c => "/".data.contains c) a = true) := by
        simp [ha]
      rw [List.rdropWhile_concat_neg _ _ _ hp]
      refine ⟨⟨0, by simp⟩, ?_⟩
      simp [ha]

/-- C9: when `StartCamera(id)` succeeds, the worker it registers for `id` has the egress
URL `t ++ "/" ++ id`, where `t` is the media-relay base URL without its trailing `/`
characters: the base is `t` followed by slashes only, and `t` does not end in `/`. -/
theorem StartCamera_outputURL (m : CameraManager) (id : String)
    (h : (m.StartCamera id).2 = none) :
    ∃ w t, (m.StartCamera id).1.workers.lookup id = some w ∧
      w.outputURL = t ++ "/" ++ id ∧
      w.outputURL.data = t.data ++ '/' :: id.data ∧
      (∃ k, m.cfg.MediaMTXURL.data = t.data ++ List.replicate k '/') ∧
      t.data.getLast? ≠ some '/' := by
  cases hw : m.workers.lookup id with
  | some w0 =>
    rw [StartCamera_registered m id w0 hw] at h
    simp at h
  | none =>
    cases hc : m.cfg.CameraConfigs.lookup id with
    | none =>
      rw [StartCamera_unconfigured m id hw hc] at h
      simp at h
    | some c =>
      rw [StartCamera_fresh m id c hw hc]
      refine ⟨_, TrimRight m.cfg.MediaMTXURL "/", AList.lookup_insert _, ?_, ?_, ?_, ?_⟩
      · simp [CameraWorker.Start, NewCameraWorker]
      · simp [CameraWorker.Start, NewCameraWorker]
      · exact (TrimRight_slash m.cfg.MediaMTXURL.data).1
      · exact (TrimRight_slash m.cfg.MediaMTXURL.data).2

theorem StartCamera_outputURL_witness :
    ((NewCameraManager false
        (Config.mk "development" "info" "ffmpeg" 15 "http://localhost:8081" "/alerts"
          "rtsp://localhost:8554//" ":8080"
          (AList.insert "cam1" (CameraConfig.mk "cam1" "rtsp://x") ∅))).StartCamera
        "cam1").2 = none ∧
    ∃ w t, ((NewCameraManager false
        (Config.mk "development" "info" "ffmpeg" 15 "http://localhost:8081" "/alerts"
          "rtsp://localhost:8554//" ":8080"
          (AList.insert "cam1" (CameraConfig.mk "cam1" "rtsp://x") ∅))).StartCamera
        "cam1").1.workers.lookup "cam1" = some w ∧
      w.outputURL = t ++ "/" ++ "cam1" ∧
      w.outputURL.data = t.data ++ '/' :: "cam1".data ∧
      (∃ k, "rtsp://localhost:8554//".data = t.data ++ List.replicate k '/') ∧
      t.data.getLast? ≠ some '/' :=
  ⟨by decide, StartCamera_outputURL _ "cam1" (by decide)⟩

/-! ### Camera worker -/

theorem processLoop_append (w : CameraWorker) (pre : List SelectEvent) :
    ∀ rest : List SelectEvent, (w.processLoop pre).2 = none →
      w.processLoop (pre ++ rest) =
        ((w.processLoop pre).1 ++ (w.processLoop rest).1, (w.processLoop rest).2) := by
  induction pre with
  | nil => intro rest _; simp [CameraWorker.processLoop]
  | cons e pre ih =>
    intro rest h
    cases e with
    | ctxDone err => simp [CameraWorker.processLoop] at h
    | sourceErr r =>
      cases r <;> simp [CameraWorker.processLoop] at h
    | framesClosed => simp [CameraWorker.processLoop] at h
    | frame f o =>
      rw [List.cons_append]
      simp only [CameraWorker.processLoop] at h ⊢
      cases hs : w.frameStep f o with
      | mk effs res =>
        cases res with
        | some err => simp [hs] at h
        | none =>
          simp only [hs] at h ⊢
          rw [ih rest h]
          simp

theorem countDispatch_append (a b : List Effect) :
    countDispatch (a ++ b) = countDispatch a + countDispatch b := by
  simp [countDispatch]

/-- C10: when the loop of `processOnce` is waiting in its `select` after the events
`pre`, and the next event delivers a frame that `handleFrame` processes successfully
with detection result `det`, then the effects the loop performs next are exactly those
of the frame's branch (`frameStep`), followed by those of the later events if the branch
does not return; these effects are part of the trace of `processOnce`; and among the
frame's effects the number of `Dispatch` calls is 0 when `det.Boxes` is empty and 1 when
it is not. -/
theorem processOnce_dispatch_count (w : CameraWorker) (pre post : List SelectEvent)
    (f : List Byte) (o : FrameOutcome) (processed : List Byte) (det : DetectionResult)
    (hpre : (w.processLoop pre).2 = none) (hok : o.handled = .ok (processed, det)) :
    (w.processLoop (pre ++ .frame f o :: post)).1 =
        (w.processLoop pre).1 ++ (w.frameStep f o).1 ++
          (if (w.frameStep f o).2 = none then (w.processLoop post).1 else []) ∧
      (∃ tail, (w.processOnce none none (pre ++ .frame f o :: post)).1 =
        [.sourceStarted, .publisherStarted] ++ (w.processLoop pre).1 ++
          (w.frameStep f o).1 ++ tail) ∧
      countDispatch (w.frameStep f o).1 = (if det.Boxes = [] then 0 else 1) := by
  have hloop : (w.processLoop (pre ++ .frame f o :: post)).1 =
      (w.processLoop pre).1 ++ (w.frameStep f o).1 ++
        (if (w.frameStep f o).2 = none then (w.processLoop post).1 else []) := by
    rw [processLoop_append w pre _ hpre]
    simp only [CameraWorker.processLoop]
    cases hs : w.frameStep f o with
    | mk effs res =>
      cases res with
      | some err => simp
      | none => simp
  refine ⟨hloop, ?_, ?_⟩
  · simp only [CameraWorker.processOnce]
    cases hr : (w.processLoop (pre ++ .frame f o :: post)).2 with
    | some err =>
      simp only [hloop]
      exact ⟨(if (w.frameStep f o).2 = none then (w.processLoop post).1 else []) ++
        [.publisherClose, .sourceClose], by simp⟩
    | none =>
      simp only [hloop]
      exact ⟨if (w.frameStep f o).2 = none then (w.processLoop post).1 else [], by simp⟩
  · simp only [CameraWorker.frameStep, hok, CameraWorker.sendAlert]
    by_cases hb : det.Boxes = []
    · cases hp : o.publishErr <;> simp [hb, countDispatch]
    · have hlen : det.Boxes.length > 0 := List.length_pos.2 hb
      cases hp : o.publishErr <;> cases hd : o.dispatchErr <;>
        simp [hb, hlen, countDispatch]

theorem processOnce_dispatch_count_witness :
    countDispatch ((NewCameraWorker "cam1" "rtsp://x" "rtsp://m/cam1" "ffmpeg" 15).frameStep
        [0xFF, 0xD8, 0xFF, 0xD9]
        { handled := .ok ([0xFF, 0xD8, 0x01, 0xFF, 0xD9],
            { Boxes := [{ Rect := { Min := { X := 0, Y := 0 }, Max := { X := 10, Y := 10 } },
                          Score := 9 }] }),
          now := 1700000000, dispatchErr := some (.msg "unexpected status: 500"),
          publishErr := none }).1 = 1 :=
  (processOnce_dispatch_count (NewCameraWorker "cam1" "rtsp://x" "rtsp://m/cam1" "ffmpeg" 15)
    [] [] [0xFF, 0xD8, 0xFF, 0xD9]
    { handled := .ok ([0xFF, 0xD8, 0x01, 0xFF, 0xD9],
        { Boxes := [{ Rect := { Min := { X := 0, Y := 0 }, Max := { X := 10, Y := 10 } },
                      Score := 9 }] }),
      now := 1700000000, dispatchErr := some (.msg "unexpected status: 500"),
      publishErr := none }
    [0xFF, 0xD8, 0x01, 0xFF, 0xD9]
    { Boxes := [{ Rect := { Min := { X := 0, Y := 0 }, Max := { X := 10, Y := 10 } },
                  Score := 9 }] }
    rfl rfl).2.2

theorem goCopy_goMake {α : Type} (zero : α) (src : List α) :
    goCopy (goMake src.length zero) src = src := by
  simp [goCopy, goMake]

theorem BoxHeap.read_length (h : BoxHeap) (s : BoxSlice)
    (hlen : s.off + s.len ≤ (h.arrays.getD s.array []).length) :
    (h.read s).length = s.len := by
  simp only [BoxHeap.read, List.length_take, List.length_drop]
  omega

theorem BoxHeap.read_append (h : BoxHeap) (extra : List (List BoundingBox)) (s : BoxSlice)
    (hin : s.array < h.arrays.length) :
    BoxHeap.read { arrays := h.arrays ++ extra } s = h.read s := by
  simp only [BoxHeap.read]
  rw [List.getD_append _ _ _ _ hin]

/-- Memory after `make` and `copy` in `sendAlert`: one array more, holding the elements of
`detection.Boxes`, and the alert refers to that array. -/
theorem sendAlertMem_eq (w : CameraWorker) (h : BoxHeap) (now : Int) (frame : List Byte)
    (detBoxes : BoxSlice) (hin : detBoxes.array < h.arrays.length)
    (hlen : detBoxes.off + detBoxes.len ≤ (h.arrays.getD detBoxes.array []).length) :
    w.sendAlertMem h now frame detBoxes =
      ({ arrays := h.arrays ++ [h.read detBoxes] },
       { CameraID := w.cameraID, Timestamp := now,
         Detections := { array := h.arrays.length, off := 0, len := detBoxes.len },
         Snapshot := ⟨base64Encode frame⟩, Metadata := none }) := by
  have hl := BoxHeap.read_length h detBoxes hlen
  have h1 : BoxHeap.read { arrays := h.arrays ++ [goMake detBoxes.len zeroBoundingBox] }
      detBoxes = h.read detBoxes := BoxHeap.read_append h _ detBoxes hin
  have h2 : BoxHeap.read { arrays := h.arrays ++ [goMake detBoxes.len zeroBoundingBox] }
      { array := h.arrays.length, off := 0, len := detBoxes.len } =
      goMake detBoxes.len zeroBoundingBox := by
    simp [BoxHeap.read, goMake]
  have h3 : goCopy (goMake detBoxes.len zeroBoundingBox) (h.read detBoxes) = h.read detBoxes := by
    rw [← hl]
    exact goCopy_goMake _ _
  simp only [CameraWorker.sendAlertMem, BoxHeap.make, BoxHeap.copy, h1, h2, h3]
  simp [goMake]

theorem getD_set_ne {α : Type} (l : List α) (i j : Nat) (x d : α) (hij : i ≠ j) :
    (l.set i x).getD j d = l.getD j d := by
  simp [List.getD_eq_getElem?_getD, List.getElem?_set_ne hij]

theorem BoxHeap.read_store_ne (h : BoxHeap) (s t : BoxSlice) (i : Nat) (v : BoundingBox)
    (hne : s.array ≠ t.array) : (h.store s i v).read t = h.read t := by
  unfold BoxHeap.store
  split_ifs
  · simp only [BoxHeap.read]
    rw [getD_set_ne _ _ _ _ _ hne]
  · rfl

theorem drop_take_set {α : Type} (arr : List α) (off len i : Nat) (v : α) (hi : i < len) :
    ((arr.set (off + i) v).drop off).take len = ((arr.drop off).take len).set i v := by
  apply List.ext_getElem?
  intro n
  simp only [List.getElem?_take, List.getElem?_drop, List.getElem?_set, List.length_take,
    List.length_drop]
  by_cases hn : n < len
  · by_cases hni : i = n
    · subst hni
      simp [hn]
      split_ifs <;> first | rfl | omega
    · have : ¬ (off + i = off + n) := by omega
      simp [hn, hni, this]
  · have : ¬ (i = n) := by omega
    simp [hn, this]

theorem BoxHeap.read_store_same (h : BoxHeap) (s : BoxSlice) (i : Nat) (v : BoundingBox)
    (hin : s.array < h.arrays.length) (hi : i < s.len) :
    (h.store s i v).read s = (h.read s).set i v := by
  unfold BoxHeap.store
  rw [if_pos hi]
  simp only [BoxHeap.read]
  have : (h.arrays.set s.array ((h.arrays.getD s.array []).set (s.off + i) v)).getD s.array [] =
      (h.arrays.getD s.array []).set (s.off + i) v := by
    simp [List.getD_eq_getElem?_getD, List.getElem?_set_self, hin]
  rw [this]
  exact drop_take_set _ _ _ _ _ hi

theorem BoxHeap.read_last (h : BoxHeap) (X : List BoundingBox) :
    BoxHeap.read { arrays := h.arrays ++ [X] }
      { array := h.arrays.length, off := 0, len := X.length } = X := by
  simp [BoxHeap.read]

theorem sendAlert_eq (w : CameraWorker) (now : Int) (dispatchErr : Option GoError)
    (frame : List Byte) (det : DetectionResult) :
    w.sendAlert now dispatchErr frame det =
      ([.dispatch { CameraID := w.cameraID, Timestamp := now, Detections := det.Boxes,
                    Snapshot := ⟨base64Encode frame⟩, Metadata := none }], dispatchErr) := by
  unfold CameraWorker.sendAlert
  simp only
  rw [sendAlertMem_eq w { arrays := [det.Boxes] } now frame
    { array := 0, off := 0, len := det.Boxes.length } (by simp) (by simp)]
  simp [AlertRef.load, BoxHeap.read]

theorem frameStep_result (w : CameraWorker) (f : List Byte) (o : FrameOutcome)
    (processed : List Byte) (det : DetectionResult) (hok : o.handled = .ok (processed, det)) :
    (w.frameStep f o).2 = o.publishErr.map (.wrap "publish frame") := by
  simp only [CameraWorker.frameStep, hok]
  cases o.publishErr <;> rfl

/-- C11: for a frame that `handleFrame` processes successfully with at least one box, the
frame's branch of `processOnce` first calls `Dispatch` (with the alert that `sendAlert`
builds), logs a warning if `Dispatch` failed, and then calls `Publish` with the
annotated JPEG, whether `Dispatch` succeeded or not. The value with which the branch
returns is decided by `Publish` alone: it is the same as with a successful `Dispatch`,
the loop goes on when `Publish` succeeds, and so the result of the whole loop, from which
the retry is decided, does not depend on the result of `Dispatch`. -/
theorem frameStep_dispatch_then_publish (w : CameraWorker) (f : List Byte) (o : FrameOutcome)
    (post : List SelectEvent) (processed : List Byte) (det : DetectionResult)
    (hok : o.handled = .ok (processed, det)) (hbox : det.Boxes ≠ []) :
    (∃ alert, (w.sendAlert o.now o.dispatchErr processed det).1 = [.dispatch alert] ∧
      (w.frameStep f o).1 =
        .dispatch alert ::
          ((match o.dispatchErr with
            | some err => [.warn "send alert" err]
            | none => []) ++ [.publish processed])) ∧
    (w.frameStep f o).2 = o.publishErr.map (.wrap "publish frame") ∧
    (w.frameStep f o).2 = (w.frameStep f { o with dispatchErr := none }).2 ∧
    (o.publishErr = none → (w.frameStep f o).2 = none) ∧
    (w.processLoop (.frame f o :: post)).2 =
      (w.processLoop (.frame f { o with dispatchErr := none } :: post)).2 := by
  have hlen : det.Boxes.length > 0 := List.length_pos.2 hbox
  have hr := frameStep_result w f o processed det hok
  have hr0 := frameStep_result w f { o with dispatchErr := none } processed det hok
  refine ⟨⟨_, by rw [sendAlert_eq], ?_⟩, hr, by rw [hr, hr0], ?_, ?_⟩
  · simp only [CameraWorker.frameStep, hok, sendAlert_eq, hlen, if_true]
    cases hp : o.publishErr <;> cases hd : o.dispatchErr <;> simp
  · intro hp
    rw [hr, hp]; rfl
  · simp only [CameraWorker.processLoop]
    cases h1 : w.frameStep f o with
    | mk e1 r1 =>
      cases h2 : w.frameStep f { o with dispatchErr := none } with
      | mk e2 r2 =>
        have a1 : r1 = o.publishErr.map (.wrap "publish frame") := by
          rw [← hr, h1]
        have a2 : r2 = o.publishErr.map (.wrap "publish frame") := by
          rw [← hr0, h2]
        rw [a1, a2]
        cases o.publishErr <;> rfl

theorem frameStep_dispatch_then_publish_witness :
    ((NewCameraWorker "cam1" "rtsp://x" "rtsp://m/cam1" "ffmpeg" 15).frameStep
        [0xFF, 0xD8, 0xFF, 0xD9]
        { handled := .ok ([0xFF, 0xD8, 0x01, 0xFF, 0xD9],
            { Boxes := [{ Rect := { Min := { X := 0, Y := 0 }, Max := { X := 10, Y := 10 } },
                          Score := 9 }] }),
          now := 1700000000, dispatchErr := some (.msg "unexpected status: 500"),
          publishErr := none }).2 = none :=
  (frameStep_dispatch_then_publish
    (NewCameraWorker "cam1" "rtsp://x" "rtsp://m/cam1" "ffmpeg" 15)
    [0xFF, 0xD8, 0xFF, 0xD9]
    { handled := .ok ([0xFF, 0xD8, 0x01, 0xFF, 0xD9],
        { Boxes := [{ Rect := { Min := { X := 0, Y := 0 }, Max := { X := 10, Y := 10 } },
                      Score := 9 }] }),
      now := 1700000000, dispatchErr := some (.msg "unexpected status: 500"),
      publishErr := none }
    []
    [0xFF, 0xD8, 0x01, 0xFF, 0xD9]
    { Boxes := [{ Rect := { Min := { X := 0, Y := 0 }, Max := { X := 10, Y := 10 } },
                  Score := 9 }] }
    rfl (by simp)).2.2.2.1 rfl

theorem base64Encode_rfc4648 :
    String.mk (base64Encode []) = "" ∧
    String.mk (base64Encode [102]) = "Zg==" ∧
    String.mk (base64Encode [102, 111]) = "Zm8=" ∧
    String.mk (base64Encode [102, 111, 111]) = "Zm9v" ∧
    String.mk (base64Encode [102, 111, 111, 98]) = "Zm9vYg==" ∧
    String.mk (base64Encode [102, 111, 111, 98, 97]) = "Zm9vYmE=" ∧
    String.mk (base64Encode [102, 111, 111, 98, 97, 114]) = "Zm9vYmFy" ∧
    String.mk (base64Encode [0xFF, 0xD8, 0xFF, 0xD9]) = "/9j/2Q==" := by decide

theorem base64Value_base64Char_fin :
    ∀ k : Fin 64, base64Value (base64Char k.val) = some k.val ∧ base64Char k.val ≠ '=' := by
  decide

theorem base64Value_base64Char (k : Nat) (hk : k < 64) :
    base64Value (base64Char k) = some k :=
  (base64Value_base64Char_fin ⟨k, hk⟩).1

theorem base64Char_ne_pad (k : Nat) (hk : k < 64) : base64Char k ≠ '=' :=
  (base64Value_base64Char_fin ⟨k, hk⟩).2

theorem byte_ofNat_eq (a : Byte) (x : Nat) (h : x = a.val) : (Fin.ofNat x : Byte) = a := by
  apply Fin.ext
  subst h
  simp [Fin.ofNat]

/-- Decoding inverts the encoder: the encoder's output is the standard base64 text of its
input. -/
theorem base64Decode_base64Encode (bs : List Byte) :
    base64Decode (base64Encode bs) = some bs := by
  have key : ∀ n (l : List Byte), l.length ≤ n → base64Decode (base64Encode l) = some l := by
    intro n
    induction n using Nat.strong_induction_on with
    | _ n ih =>
      intro l hl
      match l with
      | [] => rfl
      | [a] =>
        have ha := a.isLt
        simp only [base64Encode, base64Decode]
        rw [base64Value_base64Char _ (by omega), base64Value_base64Char _ (by omega)]
        simp only [if_true, true_and]
        rw [if_pos (by omega)]
        rw [byte_ofNat_eq a _ (by omega)]
      | [a, b] =>
        have ha := a.isLt
        have hb := b.isLt
        simp only [base64Encode, base64Decode]
        rw [base64Value_base64Char _ (by omega), base64Value_base64Char _ (by omega)]
        simp only [base64Char_ne_pad _ (show (a.val * 65536 + b.val * 256) / 64 % 64 < 64 by omega),
          if_false]
        rw [base64Value_base64Char _ (by omega)]
        simp only [if_true, true_and]
        rw [if_pos (by omega)]
        rw [byte_ofNat_eq a _ (by omega), byte_ofNat_eq b _ (by omega)]
      | a :: b :: c :: rest =>
        have ha := a.isLt
        have hb := b.isLt
        have hc := c.isLt
        simp only [base64Encode, base64Decode]
        rw [base64Value_base64Char _ (by omega), base64Value_base64Char _ (by omega)]
        simp only [base64Char_ne_pad _
          (show (a.val * 65536 + b.val * 256 + c.val) / 64 % 64 < 64 by omega), if_false]
        rw [base64Value_base64Char _ (by omega)]
        simp only [base64Char_ne_pad _
          (show (a.val * 65536 + b.val * 256 + c.val) % 64 < 64 by omega), if_false]
        rw [base64Value_base64Char _ (by omega)]
        simp only
        rw [ih rest.length (by simp at hl; omega) rest (le_refl _)]
        simp only [Option.map_some']
        rw [byte_ofNat_eq a _ (by omega), byte_ofNat_eq b _ (by omega),
          byte_ofNat_eq c _ (by omega)]
  exact key bs.length bs (le_refl _)

/-- C12: for every annotated JPEG `frame`, clock reading, `Dispatch` result and slice
`detBoxes` of detected boxes that lies in allocated memory, `sendAlert` makes exactly one
`Dispatch` call, and the alert it passes has `CameraID` equal to the worker's camera id,
`Timestamp` equal to the clock reading, no metadata, and `Detections` equal to the boxes
(same length, order and values). The detections are held in a fresh copy: their backing
array is allocated by `sendAlert` and is no array that existed before, so it differs from
the array of `detBoxes`; the arrays that existed before are unchanged; a later store
through any slice of an earlier array (the detector reusing its buffer for the next frame)
leaves the detections of the alert unchanged, although a store through `detBoxes` does
change the elements of `detBoxes`; and a store through the alert's slice leaves
`detBoxes` unchanged. `Snapshot` is the standard base64 encoding of `frame`: the
decoder of RFC 4648 maps it back to `frame`, it has `4 · ⌈len / 3⌉` characters, and on the
test vectors of the standard it is the expected text. -/
theorem sendAlert_payload (w : CameraWorker) (h : BoxHeap) (now : Int)
    (dispatchErr : Option GoError) (frame : List Byte) (detBoxes : BoxSlice)
    (hin : detBoxes.array < h.arrays.length)
    (hlen : detBoxes.off + detBoxes.len ≤ (h.arrays.getD detBoxes.array []).length) :
    w.sendAlert now dispatchErr frame { Boxes := h.read detBoxes } =
      ([.dispatch ((w.sendAlertMem h now frame detBoxes).2.load
        (w.sendAlertMem h now frame detBoxes).1)], dispatchErr) ∧
    (w.sendAlertMem h now frame detBoxes).2.CameraID = w.cameraID ∧
    (w.sendAlertMem h now frame detBoxes).2.Timestamp = now ∧
    (w.sendAlertMem h now frame detBoxes).2.Metadata = none ∧
    (w.sendAlertMem h now frame detBoxes).1.read
      (w.sendAlertMem h now frame detBoxes).2.Detections = h.read detBoxes ∧
    (w.sendAlertMem h now frame detBoxes).2.Detections.len = detBoxes.len ∧
    h.arrays.length ≤ (w.sendAlertMem h now frame detBoxes).2.Detections.array ∧
    (w.sendAlertMem h now frame detBoxes).2.Detections.array ≠ detBoxes.array ∧
    (∀ s : BoxSlice, s.array < h.arrays.length →
      (w.sendAlertMem h now frame detBoxes).1.read s = h.read s) ∧
    (∀ (s : BoxSlice) (i : Nat) (v : BoundingBox), s.array < h.arrays.length →
      ((w.sendAlertMem h now frame detBoxes).1.store s i v).read
        (w.sendAlertMem h now frame detBoxes).2.Detections = h.read detBoxes) ∧
    (∀ (i : Nat) (v : BoundingBox),
      ((w.sendAlertMem h now frame detBoxes).1.store
        (w.sendAlertMem h now frame detBoxes).2.Detections i v).read detBoxes =
          h.read detBoxes) ∧
    (∀ (i : Nat) (v : BoundingBox), i < detBoxes.len →
      ((w.sendAlertMem h now frame detBoxes).1.store detBoxes i v).read detBoxes =
        (h.read detBoxes).set i v) ∧
    base64Decode (w.sendAlertMem h now frame detBoxes).2.Snapshot.data = some frame ∧
    (w.sendAlertMem h now frame detBoxes).2.Snapshot.length = 4 * ((frame.length + 2) / 3) ∧
    (w.sendAlertMem h now [102] detBoxes).2.Snapshot = "Zg==" ∧
    (w.sendAlertMem h now [102, 111] detBoxes).2.Snapshot = "Zm8=" ∧
    (w.sendAlertMem h now [102, 111, 111] detBoxes).2.Snapshot = "Zm9v" ∧
    (w.sendAlertMem h now [102, 111, 111, 98, 97, 114] detBoxes).2.Snapshot = "Zm9vYmFy" ∧
    (w.sendAlertMem h now [0xFF, 0xD8, 0xFF, 0xD9] detBoxes).2.Snapshot = "/9j/2Q==" := by
  have hl := BoxHeap.read_length h detBoxes hlen
  have hlast := BoxHeap.read_last h (h.read detBoxes)
  rw [hl] at hlast
  have hvec : ∀ fr : List Byte, (w.sendAlertMem h now fr detBoxes).2.Snapshot =
      ⟨base64Encode fr⟩ := fun _ => rfl
  simp only [hvec]
  rw [sendAlertMem_eq w h now frame detBoxes hin hlen]
  refine ⟨?_, rfl, rfl, rfl, hlast, rfl, le_refl _, ?_, ?_, ?_, ?_, ?_, ?_, ?_,
    by decide, by decide, by decide, by decide, by decide⟩
  · rw [sendAlert_eq]
    simp only [AlertRef.load, hlast]
  · show h.arrays.length ≠ detBoxes.array
    omega
  · intro s hs
    exact BoxHeap.read_append h _ s hs
  · intro s i v hs
    rw [BoxHeap.read_store_ne _ _ _ _ _ (by show s.array ≠ h.arrays.length; omega)]
    exact hlast
  · intro i v
    rw [BoxHeap.read_store_ne _ _ _ _ _ (by show h.arrays.length ≠ detBoxes.array; omega)]
    exact BoxHeap.read_append h _ detBoxes hin
  · intro i v hi
    rw [BoxHeap.read_store_same _ detBoxes i v
      (by show detBoxes.array < (h.arrays ++ [h.read detBoxes]).length; simp; omega) hi]
    rw [BoxHeap.read_append h _ detBoxes hin]
  · exact base64Decode_base64Encode frame
  · show (base64Encode frame).length = 4 * ((frame.length + 2) / 3)
    have key : ∀ n (l : List Byte), l.length ≤ n →
        (base64Encode l).length = 4 * ((l.length + 2) / 3) := by
      intro n
      induction n using Nat.strong_induction_on with
      | _ n ih =>
        intro l hl
        match l with
        | [] => rfl
        | [_] => simp [base64Encode]
        | [_, _] => simp [base64Encode]
        | a :: b :: c :: rest =>
          simp only [base64Encode, List.length_cons]
          rw [ih rest.length (by simp at hl; omega) rest (le_refl _)]
          omega
    exact key frame.length frame (le_refl _)

theorem sendAlert_payload_witness :
    ((0 : Nat) < 1 ∧ 0 + 1 ≤ 1) ∧
    ((NewCameraWorker "cam1" "rtsp://x" "rtsp://m/cam1" "ffmpeg" 15).sendAlertMem
      { arrays := [[{ Rect := { Min := { X := 0, Y := 0 }, Max := { X := 10, Y := 10 } },
                      Score := 9 }]] }
      1700000000 [0xFF, 0xD8, 0xFF, 0xD9] { array := 0, off := 0, len := 1 }).2.Detections.array
      ≠ 0 ∧
    base64Decode ((NewCameraWorker "cam1" "rtsp://x" "rtsp://m/cam1" "ffmpeg" 15).sendAlertMem
      { arrays := [[{ Rect := { Min := { X := 0, Y := 0 }, Max := { X := 10, Y := 10 } },
                      Score := 9 }]] }
      1700000000 [0xFF, 0xD8, 0xFF, 0xD9] { array := 0, off := 0, len := 1 }).2.Snapshot.data
      = some [0xFF, 0xD8, 0xFF, 0xD9] :=
  have t := sendAlert_payload (NewCameraWorker "cam1" "rtsp://x" "rtsp://m/cam1" "ffmpeg" 15)
    { arrays := [[{ Rect := { Min := { X := 0, Y := 0 }, Max := { X := 10, Y := 10 } },
                    Score := 9 }]] }
    1700000000 none [0xFF, 0xD8, 0xFF, 0xD9] { array := 0, off := 0, len := 1 }
    (by decide) (by decide)
  ⟨by decide, t.2.2.2.2.2.2.2.1, t.2.2.2.2.2.2.2.2.2.2.2.2.1⟩

/-! ### Retry loop -/

theorem processLoop_framesClosed (w : CameraWorker) (pre : List SelectEvent)
    (hpre : (w.processLoop pre).2 = none) :
    (w.processLoop (pre ++ [.framesClosed])).2 = some .EOF := by
  rw [processLoop_append w pre _ hpre]
  simp [CameraWorker.processLoop]

theorem processOnce_framesClosed (w : CameraWorker) (pre : List SelectEvent)
    (hpre : (w.processLoop pre).2 = none) :
    (w.processOnce none none (pre ++ [.framesClosed])).2 = some .EOF := by
  have h := processLoop_framesClosed w pre hpre
  simp only [CameraWorker.processOnce, h]

/-- C13 (as amended): let a call of `processOnce` in the loop of `run` end with the error
`err`. If `err` is a cancellation (`context.Canceled` or `context.DeadlineExceeded`,
possibly wrapped), `run` returns at once: no warning, no sleep, no new attempt. For every
other error the loop logs a warning, increments `attempt` and sleeps for
`Duration(attempt)`; it returns if the context is done during the sleep and otherwise
starts a new attempt. A closed frame channel is such an other error: `processOnce`
returns `io.EOF` for it, which is not a cancellation, so a clean end-of-stream is
followed by a sleep and a new attempt as well. -/
theorem run_retries_unless_cancelled (w : CameraWorker) (ovf : OutOfRange → Int)
    (attempt : Int) (a : AttemptInput) (rest : List AttemptInput) (effs : List Effect)
    (err : GoError)
    (h : w.processOnce a.sourceStart a.publisherStart a.events = (effs, some err)) :
    ((err.Is .Canceled || err.Is .DeadlineExceeded) = true →
      w.runLoop ovf attempt (a :: rest) = ([.attempt effs (some err)], true)) ∧
    ((err.Is .Canceled || err.Is .DeadlineExceeded) = false →
      a.cancelledInSleep = true →
      w.runLoop ovf attempt (a :: rest) =
        ([.attempt effs (some err), .warn "camera pipeline error, retrying" err,
          .sleep (w.backoff.Duration (attempt + 1) a.rn a.rd ovf)], true)) ∧
    ((err.Is .Canceled || err.Is .DeadlineExceeded) = false →
      a.cancelledInSleep = false →
      w.runLoop ovf attempt (a :: rest) =
        (.attempt effs (some err) :: .warn "camera pipeline error, retrying" err ::
          .sleep (w.backoff.Duration (attempt + 1) a.rn a.rd ovf) ::
          (w.runLoop ovf (attempt + 1) rest).1, (w.runLoop ovf (attempt + 1) rest).2)) ∧
    (GoError.EOF.Is .Canceled || GoError.EOF.Is .DeadlineExceeded) = false ∧
    (∀ pre, (w.processLoop pre).2 = none →
      (w.processOnce none none (pre ++ [.framesClosed])).2 = some .EOF) := by
  refine ⟨?_, ?_, ?_, by decide, processOnce_framesClosed w⟩
  · intro hc
    simp only [CameraWorker.runLoop, h, hc, if_true]
  · intro hc hs
    simp only [CameraWorker.runLoop, h, hc, hs, if_true]
    simp
  · intro hc hs
    simp only [CameraWorker.runLoop, h, hc, hs]
    simp

theorem run_retries_unless_cancelled_witness :
    ((NewCameraWorker "cam1" "rtsp://x" "rtsp://m/cam1" "ffmpeg" 15).runLoop amd64Overflow 0
      [{ sourceStart := none, publisherStart := none, events := [.framesClosed],
         rn := 1, rd := 2, cancelledInSleep := true }]) =
      ([.attempt [.sourceStarted, .publisherStarted, .publisherClose, .sourceClose]
          (some .EOF),
        .warn "camera pipeline error, retrying" .EOF,
        .sleep ((NewCameraWorker "cam1" "rtsp://x" "rtsp://m/cam1" "ffmpeg" 15).backoff.Duration
          (0 + 1) 1 2 amd64Overflow)], true) :=
  (run_retries_unless_cancelled (NewCameraWorker "cam1" "rtsp://x" "rtsp://m/cam1" "ffmpeg" 15)
    amd64Overflow 0
    { sourceStart := none, publisherStart := none, events := [.framesClosed],
      rn := 1, rd := 2, cancelledInSleep := true } []
    [.sourceStarted, .publisherStarted, .publisherClose, .sourceClose] .EOF rfl).2.1
    (by decide) rfl

/-- C13 (counterexample to the specification as written): the frame channel of the first
attempt is closed (clean end-of-stream); `processOnce` returns `io.EOF`, and `run` does
not return: it logs the warning, sleeps for 2s (`Duration(1)` with the draw `1/2`) and
starts a second attempt, which spawns a new source and publisher. -/
theorem run_retries_after_end_of_stream :
    (NewCameraWorker "cam1" "rtsp://x" "rtsp://m/cam1" "ffmpeg" 15).run amd64Overflow
      [{ sourceStart := none, publisherStart := none, events := [.framesClosed],
         rn := 1, rd := 2, cancelledInSleep := false },
       { sourceStart := none, publisherStart := none, events := [],
         rn := 0, rd := 1, cancelledInSleep := false }] =
      ([.attempt [.sourceStarted, .publisherStarted, .publisherClose, .sourceClose]
          (some .EOF),
        .warn "camera pipeline error, retrying" .EOF,
        .sleep 2000000000,
        .attempt [.sourceStarted, .publisherStarted] none], false) := by
  decide

theorem liveSources_append (a b : List Effect) :
    liveSources (a ++ b) = liveSources a + liveSources b := by
  induction a with
  | nil => simp [liveSources]
  | cons e a ih =>
    rw [List.cons_append]
    cases e <;> simp only [liveSources] <;> rw [ih] <;> omega

theorem livePublishers_append (a b : List Effect) :
    livePublishers (a ++ b) = livePublishers a + livePublishers b := by
  induction a with
  | nil => simp [livePublishers]
  | cons e a ih =>
    rw [List.cons_append]
    cases e <;> simp only [livePublishers] <;> rw [ih] <;> omega

theorem frameStep_no_subprocess (w : CameraWorker) (f : List Byte) (o : FrameOutcome) :
    liveSources (w.frameStep f o).1 = 0 ∧ livePublishers (w.frameStep f o).1 = 0 := by
  unfold CameraWorker.frameStep
  cases o.handled with
  | error e => simp [liveSources, livePublishers]
  | ok p =>
    obtain ⟨processed, det⟩ := p
    simp only [sendAlert_eq]
    by_cases hb : det.Boxes.length > 0 <;>
      cases o.publishErr <;> cases o.dispatchErr <;>
      simp [hb, liveSources, livePublishers]

theorem processLoop_no_subprocess (w : CameraWorker) (events : List SelectEvent) :
    liveSources (w.processLoop events).1 = 0 ∧ livePublishers (w.processLoop events).1 = 0 := by
  induction events with
  | nil => simp [CameraWorker.processLoop, liveSources, livePublishers]
  | cons e rest ih =>
    cases e with
    | ctxDone err => simp [CameraWorker.processLoop, liveSources, livePublishers]
    | sourceErr r => cases r <;> simp [CameraWorker.processLoop, liveSources, livePublishers]
    | framesClosed => simp [CameraWorker.processLoop, liveSources, livePublishers]
    | frame f o =>
      have hf := frameStep_no_subprocess w f o
      simp only [CameraWorker.processLoop]
      cases hs : w.frameStep f o with
      | mk effs res =>
        rw [hs] at hf
        simp only at hf
        cases res with
        | some err => exact hf
        | none =>
          simp only [liveSources_append, livePublishers_append]
          exact ⟨by rw [hf.1, ih.1]; rfl, by rw [hf.2, ih.2]; rfl⟩

theorem processOnce_closes_when_both_started (w : CameraWorker) (events : List SelectEvent)
    (sourceStart : Option GoError) (err : GoError)
    (h : (w.processOnce sourceStart none events).2 = some err) :
    liveSources (w.processOnce sourceStart none events).1 = 0 ∧
      livePublishers (w.processOnce sourceStart none events).1 = 0 := by
  cases sourceStart with
  | some e => simp [CameraWorker.processOnce, liveSources, livePublishers]
  | none =>
    have hl := processLoop_no_subprocess w events
    simp only [CameraWorker.processOnce] at h ⊢
    cases hr : (w.processLoop events).2 with
    | none => simp [hr] at h
    | some e =>
      simp only [List.append_assoc, liveSources_append, livePublishers_append, hl.1, hl.2]
      simp [liveSources, livePublishers]

/-- C14 (the code at the failing input): when `source.Start` succeeds and
`publisher.Start` fails, `processOnce` returns the wrapped start error with the source
subprocess started and never closed, because the deferred `source.Close()` is registered
only after both starts. In `run` the next attempt then starts a second source while the
first one is still live. -/
theorem processOnce_leaves_source_open (w : CameraWorker) (e : GoError)
    (events : List SelectEvent) :
    w.processOnce none (some e) events =
        ([.sourceStarted], some (.wrap "start publisher" e)) ∧
      liveSources (w.processOnce none (some e) events).1 = 1 ∧
      (NewCameraWorker "cam1" "rtsp://x" "rtsp://m/cam1" "ffmpeg" 15).run amd64Overflow
        [{ sourceStart := none,
           publisherStart := some (.wrap "start ffmpeg publisher" (.msg "exec: not found")),
           events := [], rn := 1, rd := 2, cancelledInSleep := false },
         { sourceStart := none, publisherStart := none, events := [],
           rn := 0, rd := 1, cancelledInSleep := false }] =
        ([.attempt [.sourceStarted]
            (some (.wrap "start publisher"
              (.wrap "start ffmpeg publisher" (.msg "exec: not found")))),
          .warn "camera pipeline error, retrying"
            (.wrap "start publisher" (.wrap "start ffmpeg publisher" (.msg "exec: not found"))),
          .sleep 2000000000,
          .attempt [.sourceStarted, .publisherStarted] none], false) ∧
      liveSources ([.sourceStarted] ++ [.sourceStarted, .publisherStarted]) = 2 := by
  refine ⟨rfl, rfl, by decide, by decide⟩

theorem sleepDelays_runLoop (w : CameraWorker) (ovf : OutOfRange → Int) :
    ∀ (inputs : List AttemptInput) (a0 : Int) (k : Nat) (d : Int),
      (sleepDelays (w.runLoop ovf a0 inputs).1)[k]? = some d →
      ∃ a, inputs[k]? = some a ∧ d = w.backoff.Duration (a0 + k + 1) a.rn a.rd ovf := by
  intro inputs
  induction inputs with
  | nil => intro a0 k d h; simp [CameraWorker.runLoop, sleepDelays] at h
  | cons a rest ih =>
    intro a0 k d h
    simp only [CameraWorker.runLoop] at h
    cases hp : w.processOnce a.sourceStart a.publisherStart a.events with
    | mk effs res =>
      rw [hp] at h
      cases res with
      | none => simp [sleepDelays] at h
      | some err =>
        simp only at h
        by_cases hc : (err.Is .Canceled || err.Is .DeadlineExceeded) = true
        · simp [hc, sleepDelays] at h
        · simp only [hc] at h
          by_cases hs : a.cancelledInSleep = true
          · simp only [hs, if_true, sleepDelays] at h
            cases k with
            | zero =>
              simp at h
              exact ⟨a, by simp, by rw [← h]; simp⟩
            | succ k => simp at h
          · simp only [hs, sleepDelays] at h
            cases k with
            | zero =>
              simp at h
              exact ⟨a, by simp, by rw [← h]; simp⟩
            | succ k =>
              simp only [Bool.false_eq_true, if_false, List.getElem?_cons_succ] at h
              obtain ⟨b, hb1, hb2⟩ := ih (a0 + 1) k d h
              refine ⟨b, by simpa using hb1, ?_⟩
              rw [hb2]
              congr 1
              push_cast
              ring

theorem Duration_first_retry (rn rd : Nat) (ovf : OutOfRange → Int) (hr : rn < rd) :
    1600000000 ≤ (ExponentialBackoff.mk (10 ^ 9) (30 * 10 ^ 9) true).Duration 1 rn rd ovf ∧
      (ExponentialBackoff.mk (10 ^ 9) (30 * 10 ^ 9) true).Duration 1 rn rd ovf
        ≤ 2400000000 := by
  rw [Duration_in_range _ 1 rn rd ovf (by decide) (by decide)]
  simp only [if_true]
  have hs : ((10 : Int) ^ 9 * 2 ^ (1 : Int).toNat).sign = 1 := by decide
  have ha : ((10 : Int) ^ 9 * 2 ^ (1 : Int).toNat).natAbs = 2000000000 := by decide
  rw [hs, ha, one_mul]
  obtain ⟨jl, jh⟩ := jitterFactor_bounds rn rd hr
  have hjd := jitterFactor_den_pos rn rd
  generalize jitterFactor rn rd = jv at *
  have lo := float64Mul_mono (2000000000, 1) (7205759403792794, 2 ^ 53) (2000000000, 1) jv
    (by decide) (by decide) (by decide) hjd le_rfl jl
  have hi := float64Mul_mono (2000000000, 1) jv (2000000000, 1) (5404319552844596, 2 ^ 52)
    (by decide) hjd (by decide) (by decide) le_rfl jh
  have lo2 := natDiv_mono_of_ratOf_le _ _ lo
  have hi2 := natDiv_mono_of_ratOf_le _ _ hi
  have elo : (float64Mul (2000000000, 1) (7205759403792794, 2 ^ 53)).1 /
      (float64Mul (2000000000, 1) (7205759403792794, 2 ^ 53)).2 = 1600000000 := by decide
  have ehi : (float64Mul (2000000000, 1) (5404319552844596, 2 ^ 52)).1 /
      (float64Mul (2000000000, 1) (5404319552844596, 2 ^ 52)).2 = 2400000000 := by decide
  rw [elo] at lo2
  rw [ehi] at hi2
  generalize (float64Mul (2000000000, 1) jv).1 / (float64Mul (2000000000, 1) jv).2 = t at *
  simp only [int64OfFloat64]
  norm_num
  split_ifs <;> omega

/-- C20: in the retry loop of a worker with the policy `Base = 1s`, `Max = 30s`, jitter
on, the sleep number `k + 1` of a run (the one after the `(k+1)`-th failed `processOnce`)
lasts `Duration(k + 1)`, computed with the draw of that pass; the index counts the
failures since the start of `run` and does not depend on the events of the attempts. The
first sleep lasts between 1.6s and 2.4s, and every sleep lasts at most 30s. -/
theorem run_backoff_delays (w : CameraWorker) (ovf : OutOfRange → Int)
    (inputs : List AttemptInput)
    (hb : w.backoff = { Base := 10 ^ 9, Max := 30 * 10 ^ 9, Jitter := true }) :
    (∀ (k : Nat) (d : Int), (sleepDelays (w.run ovf inputs).1)[k]? = some d →
      ∃ a, inputs[k]? = some a ∧ d = w.backoff.Duration (k + 1) a.rn a.rd ovf) ∧
    (∀ (d : Int) (a : AttemptInput), (sleepDelays (w.run ovf inputs).1)[0]? = some d →
      inputs[0]? = some a → a.rn < a.rd → 1600000000 ≤ d ∧ d ≤ 2400000000) ∧
    (∀ d ∈ sleepDelays (w.run ovf inputs).1, d ≤ 30 * 10 ^ 9) := by
  have key : ∀ (k : Nat) (d : Int), (sleepDelays (w.run ovf inputs).1)[k]? = some d →
      ∃ a, inputs[k]? = some a ∧ d = w.backoff.Duration (k + 1) a.rn a.rd ovf := by
    intro k d h
    obtain ⟨a, h1, h2⟩ := sleepDelays_runLoop w ovf inputs 0 k d h
    exact ⟨a, h1, by rw [h2]; simp⟩
  refine ⟨key, ?_, ?_⟩
  · intro d a hd ha hr
    obtain ⟨b, h1, h2⟩ := key 0 d hd
    rw [ha] at h1
    cases h1
    rw [h2, hb]
    exact Duration_first_retry a.rn a.rd ovf hr
  · intro d hd
    obtain ⟨k, hk, hk2⟩ := List.getElem_of_mem hd
    have : (sleepDelays (w.run ovf inputs).1)[k]? = some d := by
      rw [List.getElem?_eq_getElem hk, hk2]
    obtain ⟨a, _, h2⟩ := key k d this
    rw [h2]
    have := Duration_le_Max w.backoff (k + 1) a.rn a.rd ovf (by rw [hb]; decide)
    rw [hb] at this ⊢
    exact this

theorem run_backoff_delays_witness :
    sleepDelays ((NewCameraWorker "cam1" "rtsp://x" "rtsp://m/cam1" "ffmpeg" 15).run
      amd64Overflow
      [{ sourceStart := none, publisherStart := none,
         events := [.sourceErr (some (.msg "read |0: file already closed"))],
         rn := 1, rd := 4, cancelledInSleep := true }]).1 = [1800000000] ∧
    ((1600000000 : Int) ≤ 1800000000 ∧ (1800000000 : Int) ≤ 2400000000) ∧
    (ExponentialBackoff.mk (10 ^ 9) (30 * 10 ^ 9) true).Duration 1 0 1 amd64Overflow
      = 1600000000 ∧
    (ExponentialBackoff.mk (10 ^ 9) (30 * 10 ^ 9) true).Duration 1 (2 ^ 53 - 1) (2 ^ 53)
      amd64Overflow = 2400000000 :=
  ⟨by decide,
    (run_backoff_delays (NewCameraWorker "cam1" "rtsp://x" "rtsp://m/cam1" "ffmpeg" 15)
      amd64Overflow
      [{ sourceStart := none, publisherStart := none,
         events := [.sourceErr (some (.msg "read |0: file already closed"))],
         rn := 1, rd := 4, cancelledInSleep := true }] rfl).2.1 1800000000
      { sourceStart := none, publisherStart := none,
        events := [.sourceErr (some (.msg "read |0: file already closed"))],
        rn := 1, rd := 4, cancelledInSleep := true } (by decide) rfl (by decide),
    by decide, by decide⟩

/-! ### Camera list parsing -/

theorem trimSpace_eq_self (s : List Char) (h1 : s.head?.map isSpace ≠ some true)
    (h2 : s.getLast?.map isSpace ≠ some true) : trimSpace s = s := by
  unfold trimSpace
  have hd : s.dropWhile isSpace = s := by
    cases s with
    | nil => rfl
    | cons c t =>
      have : isSpace c = false := by
        cases hc : isSpace c with
        | false => rfl
        | true => simp [hc] at h1
      simp [List.dropWhile, this]
  rw [hd, List.rdropWhile_eq_self_iff]
  intro hl hp
  apply h2
  rw [List.getLast?_eq_getLast _ hl]
  simp [hp]

theorem splitN2_entry (id url : List Char) (h : '=' ∉ id) :
    splitN2 (id ++ '=' :: url) '=' = [id, url] := by
  have hmem : '=' ∈ id ++ '=' :: url := by simp
  have ht : ∀ l : List Char, '=' ∉ l →
      (l ++ '=' :: url).takeWhile (· != '=') = l ∧
      (l ++ '=' :: url).dropWhile (· != '=') = '=' :: url := by
    intro l
    induction l with
    | nil => intro _; simp [List.takeWhile, List.dropWhile]
    | cons c t ih =>
      intro hc
      have hne : c ≠ '=' := fun e => hc (by simp [e])
      have ht2 : '=' ∉ t := fun e => hc (by simp [e])
      have hb : (c != '=') = true := by simpa using hne
      rw [List.cons_append, List.takeWhile_cons, List.dropWhile_cons]
      simp only [hb, if_true]
      exact ⟨by rw [(ih ht2).1], (ih ht2).2⟩
  simp only [splitN2, hmem, if_true, (ht id h).1, (ht id h).2, List.drop_one, List.tail_cons]

theorem String_mk_data (s : String) : String.mk s.data = s := rfl

theorem parseEntries_wellFormed (pairs : List (String × String))
    (h : ∀ p ∈ pairs, wellFormedPair p) :
    ∀ acc : AList (fun _ : String => CameraConfig),
      parseEntries (pairs.map (fun p => p.1.data ++ '=' :: p.2.data)) acc =
        .ok (pairs.foldl (fun a p => a.insert p.1 ⟨p.1, p.2⟩) acc) := by
  induction pairs with
  | nil => intro acc; rfl
  | cons p ps ih =>
    intro acc
    obtain ⟨h1, h2, h3, h4, _, _, h7⟩ := h p (by simp)
    have hid : p.1.data ≠ [] := fun e => h1 (by
      cases hp : p.1 with
      | mk d => rw [hp] at e; simp at e; simp [e])
    have hurl : p.2.data ≠ [] := fun e => h2 (by
      cases hp : p.2 with
      | mk d => rw [hp] at e; simp at e; simp [e])
    have htrim : trimSpace (p.1.data ++ '=' :: p.2.data) = p.1.data ++ '=' :: p.2.data := by
      apply trimSpace_eq_self
      · rw [List.head?_append_of_ne_nil _ hid]; exact h3.1
      · rw [List.getLast?_append_of_ne_nil _ (by simp)]
        have hl : ('=' :: p.2.data).getLast? = p.2.data.getLast? := by
          cases hu : p.2.data with
          | nil => exact absurd hu hurl
          | cons u us => rw [List.getLast?_cons_cons]
        rw [hl]
        exact h4.2
    have t1 := trimSpace_eq_self p.1.data h3.1 h3.2
    have t2 := trimSpace_eq_self p.2.data h4.1 h4.2
    simp only [List.map_cons, parseEntries, htrim, splitN2_entry _ _ h7, t1, t2,
      List.foldl_cons, String_mk_data]
    rw [if_neg (by simp), if_neg (by simp [hid, hurl])]
    exact ih (fun q hq => h q (by simp [hq])) _

theorem foldl_insert_mem (pairs : List (String × String)) :
    ∀ (acc : AList (fun _ : String => CameraConfig)) (k : String),
      k ∈ pairs.foldl (fun a p => a.insert p.1 ⟨p.1, p.2⟩) acc ↔
        k ∈ acc ∨ k ∈ pairs.map (·.1) := by
  induction pairs with
  | nil => intro acc k; simp
  | cons p ps ih =>
    intro acc k
    simp only [List.foldl_cons, List.map_cons, List.mem_cons]
    rw [ih, AList.mem_insert]
    tauto

theorem foldl_insert_lookup_other (pairs : List (String × String)) :
    ∀ (acc : AList (fun _ : String => CameraConfig)) (k : String),
      k ∉ pairs.map (·.1) →
      (pairs.foldl (fun a p => a.insert p.1 ⟨p.1, p.2⟩) acc).lookup k = acc.lookup k := by
  induction pairs with
  | nil => intro acc k _; rfl
  | cons p ps ih =>
    intro acc k hk
    simp only [List.map_cons, List.mem_cons, not_or] at hk
    simp only [List.foldl_cons]
    rw [ih _ k hk.2]
    exact AList.lookup_insert_ne hk.1

theorem foldl_insert_lookup (pairs : List (String × String))
    (hnd : (pairs.map (·.1)).Nodup) :
    ∀ (acc : AList (fun _ : String => CameraConfig)) (p : String × String), p ∈ pairs →
      (pairs.foldl (fun a p => a.insert p.1 ⟨p.1, p.2⟩) acc).lookup p.1 =
        some ⟨p.1, p.2⟩ := by
  induction pairs with
  | nil => intro acc p hp; simp at hp
  | cons q qs ih =>
    intro acc p hp
    simp only [List.map_cons, List.nodup_cons] at hnd
    simp only [List.foldl_cons]
    rcases List.mem_cons.1 hp with rfl | hp
    · rw [foldl_insert_lookup_other qs _ p.1 hnd.1]
      exact AList.lookup_insert _
    · exact ih hnd.2 _ p hp

theorem encode_data_ne_nil (p : String × String) (ps : List (String × String)) :
    (encodeCameraConfigs (p :: ps)) ≠ "" := by
  intro h
  have := congrArg String.data h
  cases ps <;> simp [encodeCameraConfigs, List.intercalate] at this

theorem parseCameraConfigs_encode (pairs : List (String × String))
    (h : ∀ p ∈ pairs, wellFormedPair p) :
    parseCameraConfigs (encodeCameraConfigs pairs) =
      .ok (pairs.foldl (fun a p => a.insert p.1 ⟨p.1, p.2⟩) ∅) := by
  cases pairs with
  | nil => rfl
  | cons p ps =>
    unfold parseCameraConfigs
    rw [if_neg (encode_data_ne_nil p ps)]
    have hs : (encodeCameraConfigs (p :: ps)).data.splitOn ';' =
        (p :: ps).map (fun p => p.1.data ++ '=' :: p.2.data) := by
      unfold encodeCameraConfigs
      apply List.splitOn_intercalate
      · intro l hl
        obtain ⟨q, hq, rfl⟩ := List.mem_map.1 hl
        obtain ⟨_, _, _, _, h5, h6, _⟩ := h q hq
        simp only [List.mem_append, List.mem_cons, not_or]
        exact ⟨h5, by decide, h6⟩
      · simp
    rw [hs]
    exact parseEntries_wellFormed (p :: ps) h ∅

/-- C15: for every list of pairs `(id, url)` with pairwise distinct ids, in which every
id and url is non-empty, has no leading or trailing white space and no `;`, and no id
contains `=`, `parseCameraConfigs` applied to the pairs written as `id=url` and joined
with `;` succeeds, and the map it returns has exactly those ids as keys, each mapped to
`CameraConfig{ID: id, RTSPURL: url}`. The empty string parses to the empty map. -/
theorem parseCameraConfigs_inverts_encoding (pairs : List (String × String))
    (hwf : ∀ p ∈ pairs, wellFormedPair p) (hnd : (pairs.map (·.1)).Nodup) :
    (∃ configs, parseCameraConfigs (encodeCameraConfigs pairs) = .ok configs ∧
      (∀ p ∈ pairs, configs.lookup p.1 = some ⟨p.1, p.2⟩) ∧
      (∀ k, k ∈ configs ↔ k ∈ pairs.map (·.1)) ∧
      configs.keys.Perm (pairs.map (·.1))) ∧
    parseCameraConfigs "" = .ok ∅ := by
  refine ⟨⟨_, parseCameraConfigs_encode pairs hwf, ?_, ?_, ?_⟩, rfl⟩
  · intro p hp
    exact foldl_insert_lookup pairs hnd ∅ p hp
  · intro k
    rw [foldl_insert_mem]
    simp
  · rw [List.perm_ext_iff_of_nodup (AList.keys_nodup _) hnd]
    intro k
    rw [← AList.mem_keys, foldl_insert_mem]
    simp

theorem parseCameraConfigs_inverts_encoding_witness :
    encodeCameraConfigs [("cam1", "rtsp://one"), ("cam2", "rtsp://two?a=b")] =
      "cam1=rtsp://one;cam2=rtsp://two?a=b" ∧
    ∃ configs, parseCameraConfigs
        (encodeCameraConfigs [("cam1", "rtsp://one"), ("cam2", "rtsp://two?a=b")]) =
          .ok configs ∧
      (∀ p ∈ [("cam1", "rtsp://one"), ("cam2", "rtsp://two?a=b")],
        configs.lookup p.1 = some ⟨p.1, p.2⟩) ∧
      (∀ k, k ∈ configs ↔
        k ∈ [("cam1", "rtsp://one"), ("cam2", "rtsp://two?a=b")].map (·.1)) ∧
      configs.keys.Perm ([("cam1", "rtsp://one"), ("cam2", "rtsp://two?a=b")].map (·.1)) :=
  ⟨by decide,
    (parseCameraConfigs_inverts_encoding [("cam1", "rtsp://one"), ("cam2", "rtsp://two?a=b")]
      (by decide) (by decide)).1⟩

theorem parseEntries_error_iff (es : List (List Char)) :
    ∀ acc : AList (fun _ : String => CameraConfig),
      (∃ e, parseEntries es acc = .error e) ↔ ∃ entry ∈ es, malformedEntry entry := by
  induction es with
  | nil => intro acc; simp [parseEntries]
  | cons entry rest ih =>
    intro acc
    simp only [parseEntries, List.mem_cons, exists_eq_or_imp]
    by_cases hblank : trimSpace entry = []
    · rw [if_pos hblank, ih]
      have : ¬ malformedEntry entry := fun hm => hm.1 hblank
      simp [this]
    · rw [if_neg hblank]
      by_cases hsep : '=' ∈ trimSpace entry
      · simp only [splitN2, hsep, if_true]
        by_cases hbad : trimSpace ((trimSpace entry).takeWhile (· != '=')) = [] ∨
            trimSpace (((trimSpace entry).dropWhile (· != '=')).drop 1) = []
        · rw [if_pos hbad]
          have : malformedEntry entry := ⟨hblank, Or.inr hbad⟩
          simp [this]
        · rw [if_neg hbad, ih]
          have : ¬ malformedEntry entry := by
            rintro ⟨_, h2⟩
            rcases h2 with h2 | h2
            · exact h2 hsep
            · exact hbad h2
          simp [this]
      · simp only [splitN2, hsep, if_false]
        have : malformedEntry entry := ⟨hblank, Or.inl hsep⟩
        simp [this]

/-- C16: `parseCameraConfigs` returns an error, and then no map, exactly when some
`;`-separated entry of its argument is non-blank after trimming and either contains no
`=` or has a blank part before its first `=` (the id) or after it (the URL); entries
that are blank after trimming do not make it fail. The list `invalid` of the test is
rejected, and a list of blank entries parses to the empty map. -/
theorem parseCameraConfigs_error_iff (val : String) :
    ((∃ e, parseCameraConfigs val = .error e) ↔
      ∃ entry ∈ val.data.splitOn ';', malformedEntry entry) ∧
    ((∃ configs, parseCameraConfigs val = .ok configs) ↔
      ∀ entry ∈ val.data.splitOn ';', ¬ malformedEntry entry) ∧
    parseCameraConfigs "invalid" = .error (.msg "invalid camera config entry: invalid") ∧
    (parseCameraConfigs " ;; ").toOption.map (·.keys) = some [] := by
  have h1 : (∃ e, parseCameraConfigs val = .error e) ↔
      ∃ entry ∈ val.data.splitOn ';', malformedEntry entry := by
    unfold parseCameraConfigs
    by_cases hv : val = ""
    · subst hv
      simp only [if_true]
      constructor
      · rintro ⟨e, he⟩; cases he
      · rintro ⟨entry, hmem, hm⟩
        have : entry = [] := by
          have : ("".data.splitOn ';') = [[]] := by decide
          rw [this] at hmem
          simpa using hmem
        subst this
        exact absurd rfl hm.1
    · rw [if_neg hv]
      exact parseEntries_error_iff _ ∅
  refine ⟨h1, ?_, by decide, by decide⟩
  constructor
  · rintro ⟨c, hc⟩ entry hmem hm
    obtain ⟨e, he⟩ := h1.2 ⟨entry, hmem, hm⟩
    rw [hc] at he
    cases he
  · intro hall
    cases hp : parseCameraConfigs val with
    | ok c => exact ⟨c, rfl⟩
    | error e =>
      obtain ⟨entry, hmem, hm⟩ := h1.1 ⟨e, hp⟩
      exact absurd hm (hall entry hmem)

/-! ### Drawing of detections -/

theorem Painted.refl (img : ImageRGBA) : Painted (fun _ _ => False) img img :=
  ⟨rfl, fun _ _ => ⟨fun h => h.elim, fun _ => rfl⟩⟩

theorem Painted.comp {P Q : Int → Int → Prop} {i0 i1 i2 : ImageRGBA}
    (h1 : Painted P i0 i1) (h2 : Painted Q i1 i2) :
    Painted (fun a b => P a b ∨ Q a b) i0 i2 := by
  refine ⟨h2.1.trans h1.1, fun a b => ⟨?_, ?_⟩⟩
  · intro h
    by_cases hq : Q a b
    · exact (h2.2 a b).1 hq
    · rw [(h2.2 a b).2 hq]
      rcases h with h | h
      · exact (h1.2 a b).1 h
      · exact absurd h hq
  · intro h
    have hp : ¬ P a b := fun x => h (Or.inl x)
    have hq : ¬ Q a b := fun x => h (Or.inr x)
    rw [(h2.2 a b).2 hq, (h1.2 a b).2 hp]

theorem Painted.congr {P Q : Int → Int → Prop} {i0 i1 : ImageRGBA}
    (h : Painted P i0 i1) (hpq : ∀ a b, P a b ↔ Q a b) : Painted Q i0 i1 :=
  ⟨h.1, fun a b => ⟨fun hq => (h.2 a b).1 ((hpq a b).2 hq),
    fun hq => (h.2 a b).2 (fun hp => hq ((hpq a b).1 hp))⟩⟩

theorem Set_painted (img : ImageRGBA) (x y : Int) :
    Painted (fun a b => a = x ∧ b = y ∧ Point.In { X := x, Y := y } img.Rect = true)
      img (img.Set x y red) := by
  unfold ImageRGBA.Set
  by_cases hin : Point.In { X := x, Y := y } img.Rect = true
  · simp only [hin, Bool.not_true, Bool.false_eq_true, if_false]
    refine ⟨rfl, fun a b => ⟨?_, ?_⟩⟩
    · rintro ⟨ha, hb, _⟩
      simp [ha, hb]
    · intro h
      have : ¬ (a = x ∧ b = y) := fun hab => h ⟨hab.1, hab.2, trivial⟩
      simp [this]
  · have hf : Point.In { X := x, Y := y } img.Rect = false := by simpa using hin
    simp only [hf, Bool.not_false, if_true]
    exact ⟨rfl, fun a b => ⟨fun h => by simp at h, fun _ => rfl⟩⟩

theorem foldl_painted (R : Rectangle) (Pk : Nat → Int → Int → Prop)
    (body : Nat → ImageRGBA → ImageRGBA)
    (hbody : ∀ im k, im.Rect = R → Painted (Pk k) im (body k im)) (ks : List Nat) :
    ∀ img : ImageRGBA, img.Rect = R →
      Painted (fun a b => ∃ k ∈ ks, Pk k a b) img (ks.foldl (fun s k => body k s) img) := by
  induction ks with
  | nil =>
    intro img _
    exact (Painted.refl img).congr (fun a b => by simp)
  | cons k ks ih =>
    intro img hR
    have h1 := hbody img k hR
    have h2 := ih (body k img) (h1.1.trans hR)
    simp only [List.foldl_cons]
    exact (h1.comp h2).congr (fun a b => by simp)

theorem forLoop_painted (R : Rectangle) (lo hi : Int) (Px : Int → Int → Int → Prop)
    (body : Int → ImageRGBA → ImageRGBA)
    (hbody : ∀ im i, im.Rect = R → Painted (Px i) im (body i im))
    (img : ImageRGBA) (hR : img.Rect = R) :
    Painted (fun a b => ∃ i, lo ≤ i ∧ i ≤ hi ∧ Px i a b) img (forLoop lo hi body img) := by
  unfold forLoop
  have h := foldl_painted R (fun k => Px (lo + (k : Int))) (fun k im => body (lo + (k : Int)) im)
    (fun im k hr => hbody im _ hr) (List.range (hi + 1 - lo).toNat) img hR
  refine h.congr (fun a b => ⟨?_, ?_⟩)
  · rintro ⟨k, hk, hp⟩
    rw [List.mem_range] at hk
    exact ⟨lo + k, by omega, by omega, hp⟩
  · rintro ⟨i, h1, h2, hp⟩
    refine ⟨(i - lo).toNat, ?_, ?_⟩
    · rw [List.mem_range]; omega
    · have : lo + ((i - lo).toNat : Int) = i := by omega
      show Px (lo + ((i - lo).toNat : Int)) a b
      rw [this]; exact hp

theorem Intersect_within (r s : Rectangle) (h : (r.Intersect s).Empty = false) (x y : Int)
    (hx1 : (r.Intersect s).Min.X ≤ x) (hx2 : x ≤ (r.Intersect s).Max.X - 1)
    (hy1 : (r.Intersect s).Min.Y ≤ y) (hy2 : y ≤ (r.Intersect s).Max.Y - 1) :
    Point.In { X := x, Y := y } s = true := by
  unfold Rectangle.Intersect at h hx1 hx2 hy1 hy2
  simp only at h hx1 hx2 hy1 hy2
  split_ifs at h hx1 hx2 hy1 hy2 <;>
    simp_all [Rectangle.Empty, Point.In] <;> omega

theorem drawBox_painted (img : ImageRGBA) (box : BoundingBox) :
    Painted (onOutline (box.Rect.Intersect img.Rect)) img (drawBox img box) := by
  unfold drawBox
  simp only
  by_cases he : (box.Rect.Intersect img.Rect).Empty = true
  · rw [if_pos he]
    exact (Painted.refl img).congr (fun a b => by simp [onOutline, he])
  · have hne : (box.Rect.Intersect img.Rect).Empty = false := by simpa using he
    rw [if_neg he]
    generalize hr : box.Rect.Intersect img.Rect = rect at hne he
    have hin : ∀ x y, rect.Min.X ≤ x → x ≤ rect.Max.X - 1 → rect.Min.Y ≤ y →
        y ≤ rect.Max.Y - 1 → Point.In { X := x, Y := y } img.Rect = true := by
      intro x y h1 h2 h3 h4
      subst hr
      exact Intersect_within box.Rect img.Rect hne x y h1 h2 h3 h4
    have hxy : rect.Min.X ≤ rect.Max.X - 1 ∧ rect.Min.Y ≤ rect.Max.Y - 1 := by
      simp [Rectangle.Empty] at hne
      omega
    have hA := forLoop_painted img.Rect rect.Min.X (rect.Max.X - 1)
      (fun i a b =>
        (a = i ∧ b = rect.Min.Y ∧ Point.In { X := i, Y := rect.Min.Y } img.Rect = true) ∨
        (a = i ∧ b = rect.Max.Y - 1 ∧
          Point.In { X := i, Y := rect.Max.Y - 1 } img.Rect = true))
      (fun x im => (im.Set x rect.Min.Y red).Set x (rect.Max.Y - 1) red)
      (fun im i hR => by
        have s1 := Set_painted im i rect.Min.Y
        have s2 := Set_painted (im.Set i rect.Min.Y red) i (rect.Max.Y - 1)
        rw [s1.1, hR] at s2
        rw [hR] at s1
        exact s1.comp s2) img rfl
    have hB := forLoop_painted img.Rect rect.Min.Y (rect.Max.Y - 1)
      (fun i a b =>
        (a = rect.Min.X ∧ b = i ∧ Point.In { X := rect.Min.X, Y := i } img.Rect = true) ∨
        (a = rect.Max.X - 1 ∧ b = i ∧
          Point.In { X := rect.Max.X - 1, Y := i } img.Rect = true))
      (fun y im => (im.Set rect.Min.X y red).Set (rect.Max.X - 1) y red)
      (fun im i hR => by
        have s1 := Set_painted im rect.Min.X i
        have s2 := Set_painted (im.Set rect.Min.X i red) (rect.Max.X - 1) i
        rw [s1.1, hR] at s2
        rw [hR] at s1
        exact s1.comp s2)
      (forLoop rect.Min.X (rect.Max.X - 1)
        (fun x im => (im.Set x rect.Min.Y red).Set x (rect.Max.Y - 1) red) img) hA.1
    refine (hA.comp hB).congr (fun a b => ?_)
    simp only [onOutline, hne, true_and]
    constructor
    · rintro (⟨i, h1, h2, h3 | h3⟩ | ⟨i, h1, h2, h3 | h3⟩)
      · obtain ⟨rfl, rfl, _⟩ := h3
        exact Or.inl ⟨h1, h2, Or.inl rfl⟩
      · obtain ⟨rfl, rfl, _⟩ := h3
        exact Or.inl ⟨h1, h2, Or.inr rfl⟩
      · obtain ⟨rfl, rfl, _⟩ := h3
        exact Or.inr ⟨h1, h2, Or.inl rfl⟩
      · obtain ⟨rfl, rfl, _⟩ := h3
        exact Or.inr ⟨h1, h2, Or.inr rfl⟩
    · rintro (⟨h1, h2, h3 | h3⟩ | ⟨h1, h2, h3 | h3⟩)
      · exact Or.inl ⟨a, h1, h2, Or.inl ⟨rfl, h3, hin a _ h1 h2 (le_refl _) hxy.2⟩⟩
      · exact Or.inl ⟨a, h1, h2, Or.inr ⟨rfl, h3, hin a _ h1 h2 hxy.2 (le_refl _)⟩⟩
      · exact Or.inr ⟨b, h1, h2, Or.inl ⟨h3, rfl, hin _ b (le_refl _) hxy.1 h1 h2⟩⟩
      · exact Or.inr ⟨b, h1, h2, Or.inr ⟨h3, rfl, hin _ b hxy.1 (le_refl _) h1 h2⟩⟩

theorem foldl_drawBox_painted (boxes : List BoundingBox) :
    ∀ img : ImageRGBA,
      Painted (fun a b => ∃ box ∈ boxes, onOutline (box.Rect.Intersect img.Rect) a b)
        img (boxes.foldl drawBox img) := by
  induction boxes with
  | nil =>
    intro img
    exact (Painted.refl img).congr (fun a b => by simp)
  | cons box boxes ih =>
    intro img
    have h1 := drawBox_painted img box
    have h2 := ih (drawBox img box)
    rw [h1.1] at h2
    simp only [List.foldl_cons]
    exact (h1.comp h2).congr (fun a b => by simp)

/-- C17: for every RGBA image and every detection list, `drawDetections` keeps the bounds
of the image; a pixel that lies on the outline (first or last row, first or last column)
of some box clipped to the image bounds, the clipped rectangle being non-empty, is solid
red `(255, 0, 0, 255)` afterwards; every other pixel keeps its colour; every outline
point lies inside the image bounds; and a box whose intersection with the image bounds is
empty changes nothing at all. -/
theorem drawDetections_outline (img : ImageRGBA) (detection : DetectionResult) (x y : Int) :
    (drawDetections img detection).Rect = img.Rect ∧
    ((∃ box ∈ detection.Boxes, onOutline (box.Rect.Intersect img.Rect) x y) →
      (drawDetections img detection).pixel x y = { R := 255, G := 0, B := 0, A := 255 }) ∧
    ((¬ ∃ box ∈ detection.Boxes, onOutline (box.Rect.Intersect img.Rect) x y) →
      (drawDetections img detection).pixel x y = img.pixel x y) ∧
    (∀ box : BoundingBox, onOutline (box.Rect.Intersect img.Rect) x y →
      Point.In { X := x, Y := y } img.Rect = true) ∧
    (∀ box : BoundingBox, (box.Rect.Intersect img.Rect).Empty = true →
      drawDetections img { Boxes := [box] } = img) := by
  have h := foldl_drawBox_painted detection.Boxes img
  refine ⟨h.1, (h.2 x y).1, (h.2 x y).2, ?_, ?_⟩
  · rintro box ⟨hne, h1 | h1⟩
    · have hxy : (box.Rect.Intersect img.Rect).Min.Y ≤ (box.Rect.Intersect img.Rect).Max.Y - 1 := by
        simp [Rectangle.Empty] at hne; omega
      rcases h1.2.2 with e | e
      · exact Intersect_within _ _ hne x y h1.1 h1.2.1 (by omega) (by omega)
      · exact Intersect_within _ _ hne x y h1.1 h1.2.1 (by omega) (by omega)
    · have hxy : (box.Rect.Intersect img.Rect).Min.X ≤ (box.Rect.Intersect img.Rect).Max.X - 1 := by
        simp [Rectangle.Empty] at hne; omega
      rcases h1.2.2 with e | e
      · exact Intersect_within _ _ hne x y (by omega) (by omega) h1.1 h1.2.1
      · exact Intersect_within _ _ hne x y (by omega) (by omega) h1.1 h1.2.1
  · intro box he
    simp [drawDetections, drawBox, he]

theorem drawDetections_outline_witness :
    (∃ box ∈ [BoundingBox.mk ⟨⟨1, 1⟩, ⟨10, 10⟩⟩ 9],
        onOutline (box.Rect.Intersect (Rectangle.mk ⟨0, 0⟩ ⟨4, 3⟩)) 3 2) ∧
    (drawDetections { Rect := ⟨⟨0, 0⟩, ⟨4, 3⟩⟩, pixel := fun _ _ => ⟨0, 0, 0, 0⟩ }
      { Boxes := [BoundingBox.mk ⟨⟨1, 1⟩, ⟨10, 10⟩⟩ 9] }).pixel 3 2 =
        { R := 255, G := 0, B := 0, A := 255 } :=
  ⟨by decide,
    (drawDetections_outline { Rect := ⟨⟨0, 0⟩, ⟨4, 3⟩⟩, pixel := fun _ _ => ⟨0, 0, 0, 0⟩ }
      { Boxes := [BoundingBox.mk ⟨⟨1, 1⟩, ⟨10, 10⟩⟩ 9] } 3 2).2.1 (by decide)⟩

/-! ### Frame channel -/

theorem trySend_length {α : Type} (ch : List α) (x : α) (h : ch.length ≤ 1) :
    (trySend ch x).length ≤ 1 := by
  unfold trySend
  split_ifs with hc
  · have : ch = [] := List.length_eq_zero.1 (by omega)
    subst this
    simp
  · exact h

theorem readLoopIter_frames_length (s : FFmpegFrameSource) (d1 d2 p : Bool)
    (h : s.frames.length ≤ 1) : (s.readLoopIter d1 d2 p).1.frames.length ≤ 1 := by
  unfold FFmpegFrameSource.readLoopIter
  by_cases h1 : d1 = true
  · simp [h1, FFmpegFrameSource.closeChannels, h]
  · simp only [h1]
    cases hr : readMJPEGFrame s.atEnd s.reader with
    | error e =>
      by_cases he : e.Is .EOF = true <;>
        simp [he, FFmpegFrameSource.closeChannels, h]
    | ok pr =>
      obtain ⟨frame, rest⟩ := pr
      simp only [Bool.false_eq_true, if_false]
      by_cases hc : (d2 && (p || !decide (s.frames.length < 1))) = true
      · rw [if_pos hc]
        simp [FFmpegFrameSource.closeChannels, h]
      · rw [if_neg hc]
        exact trySend_length _ _ h

theorem Reachable_frames_length (s : FFmpegFrameSource) (h : s.Reachable) :
    s.frames.length ≤ 1 := by
  induction h with
  | start reader atEnd => simp [FFmpegFrameSource.started]
  | pass s d1 d2 p _ _ ih => exact readLoopIter_frames_length s d1 d2 p ih
  | recvFrame s _ ih =>
    unfold FFmpegFrameSource.recvFrame
    cases hf : s.frames with
    | nil => simp [hf]
    | cons f rest =>
      rw [hf] at ih
      simp only [List.length_cons] at ih ⊢
      omega
  | recvErr s _ ih =>
    unfold FFmpegFrameSource.recvErr
    cases he : s.errCh with
    | nil => exact ih
    | cons e rest => exact ih

/-- C18: in every reachable state of the frame source the frame channel holds at most
one frame. When a pass of `readLoop` has read a frame and the channel already holds
one, the channel holds the same frame afterwards, whatever the state of the context: the
frame just read is discarded. When the channel is empty and the context is not done, the
frame just read is placed on the channel and the loop goes on. -/
theorem frames_channel_drop_newest (s : FFmpegFrameSource) (h : s.Reachable)
    (doneAtSend preferDone : Bool) :
    s.frames.length ≤ 1 ∧
    (∀ frame rest buffered, readMJPEGFrame s.atEnd s.reader = .ok (frame, rest) →
      s.frames = [buffered] →
      (s.readLoopIter false doneAtSend preferDone).1.frames = [buffered]) ∧
    (∀ frame rest, readMJPEGFrame s.atEnd s.reader = .ok (frame, rest) →
      s.frames = [] →
      (s.readLoopIter false false preferDone).1.frames = [frame] ∧
      (s.readLoopIter false false preferDone).2 = true) := by
  refine ⟨Reachable_frames_length s h, ?_, ?_⟩
  · intro frame rest buffered hr hf
    simp only [FFmpegFrameSource.readLoopIter, hr, hf, Bool.false_eq_true, if_false]
    split_ifs <;> simp [FFmpegFrameSource.closeChannels, trySend]
  · intro frame rest hr hf
    simp [FFmpegFrameSource.readLoopIter, hr, hf, trySend]

theorem frames_channel_drop_newest_witness :
    ((FFmpegFrameSource.started [0xFF, 0xD8, 0x01, 0xFF, 0xD9, 0xFF, 0xD8, 0x02, 0xFF, 0xD9]
        .EOF).readLoopIter false false false).1.frames = [[0xFF, 0xD8, 0x01, 0xFF, 0xD9]] ∧
    ((FFmpegFrameSource.started [0xFF, 0xD8, 0x01, 0xFF, 0xD9, 0xFF, 0xD8, 0x02, 0xFF, 0xD9]
        .EOF).readLoopIter false false false).2 = true :=
  (frames_channel_drop_newest
    (FFmpegFrameSource.started [0xFF, 0xD8, 0x01, 0xFF, 0xD9, 0xFF, 0xD8, 0x02, 0xFF, 0xD9] .EOF)
    (.start _ _) false false).2.2 [0xFF, 0xD8, 0x01, 0xFF, 0xD9] [0xFF, 0xD8, 0x02, 0xFF, 0xD9]
    (by decide) rfl

theorem readLoopIter_valid (s : FFmpegFrameSource) (F R : List Byte) (hF : validFrame F)
    (hr : s.reader = F ++ R) :
    s.readLoopIter false false false =
      ({ s with reader := R, frames := trySend s.frames F }, true) := by
  have h := roundtrip_single s.atEnd F R hF.1 hF.2.1 hF.2.2
  rw [← hr] at h
  simp [FFmpegFrameSource.readLoopIter, h]

theorem readLoopN_full (T : List Byte) (Fs : List (List Byte)) :
    (∀ G ∈ Fs, validFrame G) →
    ∀ (s : FFmpegFrameSource) (b : List Byte), s.reader = Fs.flatten ++ T → s.frames = [b] →
      (FFmpegFrameSource.readLoopN Fs.length s).frames = [b] ∧
      (FFmpegFrameSource.readLoopN Fs.length s).reader = T := by
  induction Fs with
  | nil =>
    intro _ s b hr hf
    simpa [FFmpegFrameSource.readLoopN, hf] using hr
  | cons F Fs ih =>
    intro hv s b hr hf
    have h1 := readLoopIter_valid s F (Fs.flatten ++ T) (hv F (by simp)) (by simp [hr])
    simp only [List.length_cons, FFmpegFrameSource.readLoopN, h1]
    exact ih (fun G hG => hv G (by simp [hG])) _ b rfl (by simp [hf, trySend])

/-- C19 (as amended): let the channel be empty, let the stream start with the frames
`F, F₁, …, Fₖ` (each with its first `FF D9` at its end), and let the reader goroutine make
`k + 1` passes, reading all of them, before the consumer receives and without
cancellation. Then the channel holds `F`, the frame read first; the frames read after it
have been discarded; and the next receive of the consumer returns `F`. -/
theorem consumer_receives_first_read (s : FFmpegFrameSource) (F T : List Byte)
    (Fs : List (List Byte)) (hF : validFrame F) (hFs : ∀ G ∈ Fs, validFrame G)
    (hr : s.reader = (F :: Fs).flatten ++ T) (hempty : s.frames = []) :
    (FFmpegFrameSource.readLoopN (Fs.length + 1) s).frames = [F] ∧
      (FFmpegFrameSource.readLoopN (Fs.length + 1) s).reader = T ∧
      (FFmpegFrameSource.readLoopN (Fs.length + 1) s).recvFrame.1 = some F := by
  have h1 := readLoopIter_valid s F (Fs.flatten ++ T) hF (by simp [hr])
  have h2 := readLoopN_full T Fs hFs
    { s with reader := Fs.flatten ++ T, frames := trySend s.frames F } F rfl
    (by simp [hempty, trySend])
  simp only [FFmpegFrameSource.readLoopN, h1]
  refine ⟨h2.1, h2.2, ?_⟩
  simp [FFmpegFrameSource.recvFrame, h2.1]

theorem consumer_receives_first_read_witness :
    (FFmpegFrameSource.readLoopN 2
      (FFmpegFrameSource.started
        [0xFF, 0xD8, 0x01, 0xFF, 0xD9, 0xFF, 0xD8, 0x02, 0xFF, 0xD9] .EOF)).recvFrame.1 =
      some [0xFF, 0xD8, 0x01, 0xFF, 0xD9] :=
  (consumer_receives_first_read
    (FFmpegFrameSource.started [0xFF, 0xD8, 0x01, 0xFF, 0xD9, 0xFF, 0xD8, 0x02, 0xFF, 0xD9] .EOF)
    [0xFF, 0xD8, 0x01, 0xFF, 0xD9] [] [[0xFF, 0xD8, 0x02, 0xFF, 0xD9]]
    (by decide) (by decide) (by decide) rfl).2.2

/-- C19 (counterexample to the specification as written): the reader goroutine reads the two
frames `FF D8 01 FF D9` and `FF D8 02 FF D9` while the consumer has not received. The
channel then holds the first of them, and the consumer's next receive returns it, not
the frame read most recently. -/
theorem consumer_does_not_receive_freshest :
    (FFmpegFrameSource.readLoopN 2
      (FFmpegFrameSource.started
        [0xFF, 0xD8, 0x01, 0xFF, 0xD9, 0xFF, 0xD8, 0x02, 0xFF, 0xD9] .EOF)).recvFrame.1 =
      some [0xFF, 0xD8, 0x01, 0xFF, 0xD9] ∧
    (FFmpegFrameSource.readLoopN 2
      (FFmpegFrameSource.started
        [0xFF, 0xD8, 0x01, 0xFF, 0xD9, 0xFF, 0xD8, 0x02, 0xFF, 0xD9] .EOF)).recvFrame.1 ≠
      some [0xFF, 0xD8, 0x02, 0xFF, 0xD9] ∧
    (FFmpegFrameSource.readLoopN 2
      (FFmpegFrameSource.started
        [0xFF, 0xD8, 0x01, 0xFF, 0xD9, 0xFF, 0xD8, 0x02, 0xFF, 0xD9] .EOF)).reader = [] := by
  decide

end RtFaceWorker
